import Mathlib

/-!
Verification development for the DifferentialLab solving engine.

The Python modules under `src/solver` are shallowly embedded here:

* `src/solver/equation_parser.py` — the expression sandbox
  (`_validate_ast`, `parse_expression`, `parse_difference_expression`,
  `parse_vector_expression`, `get_ode_function`, `get_difference_function`);
* `src/solver/validators.py` — `validate_all_inputs` and its helpers;
* `src/solver/ode_solver.py` — `solve_ode` and `solve_multipoint`;
* `src/solver/difference_solver.py` — `solve_difference`;
* `src/solver/pde_solver.py` — `solve_pde_2d` and
  `solve_pde_2d_linear_poisson`.

Machine floats are modelled as exact rationals (`ℚ`, and `PyFloat` where
non-finite values matter); raised exceptions are modelled with
`Except String`; the CPython `ast.parse` output is modelled by the closed
inductive `PyExpr` below, whose constructors are the expression node kinds
that can occur in `mode="eval"` parsing, and the CPython `eval` of a compiled
expression against a restricted namespace is modelled by the interpreter
`evalExpr`.  External collaborators (the SciPy integrator, `fsolve`, the
sparse linear solver, the configuration module) are either passed in as
explicit parameters or modelled from the specification, as documented at
each definition.
-/

/-- The kinds (CPython class names) of AST nodes that the model represents.
`ast.walk` of an eval-mode parse yields nodes of these kinds (plus the
always-allowed bookkeeping kinds `Expression` and `Load`, which carry no
information and are folded into the tree constructors). -/
inductive NodeKind where
  | Expression | BoolOp | BinOp | UnaryOp | Lambda | IfExp | Dict | Set
  | ListComp | SetComp | DictComp | GeneratorExp | Compare | Call | Constant
  | Attribute | Subscript | Starred | Name | TupleK | ListK | NamedExpr
  | Slice | JoinedStr | FormattedValue | KeywordArg | Load
  | Add | Sub | Mult | MatMult | Div | Mod | Pow | LShift | RShift
  | BitOr | BitXor | BitAnd | FloorDiv
  | UAdd | USub | NotOp | Invert
  | AndK | OrK
  | Eq | NotEq | Lt | LtE | Gt | GtE | IsOp | IsNotOp | InOp | NotInOp
deriving DecidableEq, Repr

/-- CPython source class name of a node kind, as it appears in the
`Disallowed construct` message produced by `_validate_ast`. -/
def NodeKind.pyName : NodeKind → String
  | .Expression => "Expression" | .BoolOp => "BoolOp" | .BinOp => "BinOp"
  | .UnaryOp => "UnaryOp" | .Lambda => "Lambda" | .IfExp => "IfExp"
  | .Dict => "Dict" | .Set => "Set" | .ListComp => "ListComp"
  | .SetComp => "SetComp" | .DictComp => "DictComp"
  | .GeneratorExp => "GeneratorExp" | .Compare => "Compare" | .Call => "Call"
  | .Constant => "Constant" | .Attribute => "Attribute"
  | .Subscript => "Subscript" | .Starred => "Starred" | .Name => "Name"
  | .TupleK => "Tuple" | .ListK => "List" | .NamedExpr => "NamedExpr"
  | .Slice => "Slice" | .JoinedStr => "JoinedStr"
  | .FormattedValue => "FormattedValue" | .KeywordArg => "keyword"
  | .Load => "Load"
  | .Add => "Add" | .Sub => "Sub" | .Mult => "Mult" | .MatMult => "MatMult"
  | .Div => "Div" | .Mod => "Mod" | .Pow => "Pow" | .LShift => "LShift"
  | .RShift => "RShift" | .BitOr => "BitOr" | .BitXor => "BitXor"
  | .BitAnd => "BitAnd" | .FloorDiv => "FloorDiv"
  | .UAdd => "UAdd" | .USub => "USub" | .NotOp => "Not" | .Invert => "Invert"
  | .AndK => "And" | .OrK => "Or"
  | .Eq => "Eq" | .NotEq => "NotEq" | .Lt => "Lt" | .LtE => "LtE"
  | .Gt => "Gt" | .GtE => "GtE" | .IsOp => "Is" | .IsNotOp => "IsNot"
  | .InOp => "In" | .NotInOp => "NotIn"

/-- The fixed allow-list `_ALLOWED_NODE_TYPES` of
`src/solver/equation_parser.py` (lines 57–91), as a predicate on node
kinds.  `Module` and `Expr` from the Python tuple are statement-level
kinds that cannot occur in an eval-mode parse and therefore have no
counterpart in the model. -/
def allowedKind : NodeKind → Bool
  | .Expression => true | .BinOp => true | .UnaryOp => true | .Call => true
  | .Name => true | .Constant => true | .Load => true
  | .Add => true | .Sub => true | .Mult => true | .Div => true
  | .Pow => true | .USub => true | .UAdd => true
  | .Subscript => true | .Attribute => true | .FloorDiv => true
  | .Mod => true | .Compare => true | .IfExp => true | .BoolOp => true
  | .AndK => true | .OrK => true
  | .Eq => true | .NotEq => true | .Lt => true | .LtE => true
  | .Gt => true | .GtE => true
  | .TupleK => true | .ListK => true
  | _ => false

/-- Binary operator node of a `BinOp`. -/
inductive BinOpKind where
  | add | sub | mult | matMult | div | mod | pow | lshift | rshift
  | bitOr | bitXor | bitAnd | floorDiv
deriving DecidableEq, Repr

def BinOpKind.kind : BinOpKind → NodeKind
  | .add => .Add | .sub => .Sub | .mult => .Mult | .matMult => .MatMult
  | .div => .Div | .mod => .Mod | .pow => .Pow | .lshift => .LShift
  | .rshift => .RShift | .bitOr => .BitOr | .bitXor => .BitXor
  | .bitAnd => .BitAnd | .floorDiv => .FloorDiv

/-- Unary operator node of a `UnaryOp`. -/
inductive UnaryOpKind where
  | uadd | usub | notOp | invert
deriving DecidableEq, Repr

def UnaryOpKind.kind : UnaryOpKind → NodeKind
  | .uadd => .UAdd | .usub => .USub | .notOp => .NotOp | .invert => .Invert

/-- Boolean operator node of a `BoolOp`. -/
inductive BoolOpKind where
  | andOp | orOp
deriving DecidableEq, Repr

def BoolOpKind.kind : BoolOpKind → NodeKind
  | .andOp => .AndK | .orOp => .OrK

/-- Comparison operator node of a `Compare`. -/
inductive CmpOpKind where
  | eq | notEq | lt | ltE | gt | gtE | isOp | isNotOp | inOp | notInOp
deriving DecidableEq, Repr

def CmpOpKind.kind : CmpOpKind → NodeKind
  | .eq => .Eq | .notEq => .NotEq | .lt => .Lt | .ltE => .LtE
  | .gt => .Gt | .gtE => .GtE | .isOp => .IsOp | .isNotOp => .IsNotOp
  | .inOp => .InOp | .notInOp => .NotInOp

/-- Model of the expression AST produced by the CPython `ast.parse(text,
mode="eval")`: one constructor per expression node kind.  Numeric
constants are modelled as rationals; string/bool/None constants, which no
claim touches, are not represented.  `comp` collectively stands for the
four comprehension kinds, tagged with the concrete kind. -/
inductive PyExpr where
  | boolOp (op : BoolOpKind) (values : List PyExpr)
  | binOp (left : PyExpr) (op : BinOpKind) (right : PyExpr)
  | unaryOp (op : UnaryOpKind) (operand : PyExpr)
  | lam (body : PyExpr)
  | ifExp (test body orelse : PyExpr)
  | dict (keys values : List PyExpr)
  | setDisplay (elts : List PyExpr)
  | comp (kind : NodeKind) (elt : PyExpr)
  | compare (left : PyExpr) (ops : List CmpOpKind) (comparators : List PyExpr)
  | call (func : PyExpr) (args : List PyExpr) (keywords : List (String × PyExpr))
  | constant (value : ℚ)
  | attribute (value : PyExpr) (attr : String)
  | subscript (value : PyExpr) (index : PyExpr)
  | starred (value : PyExpr)
  | name (id : String)
  | tuple (elts : List PyExpr)
  | list (elts : List PyExpr)
  | namedExpr (target : String) (value : PyExpr)
  | sliceNode (lower upper : Option PyExpr)
  | joinedStr (values : List PyExpr)
deriving Repr

mutual

/-- All node kinds reachable from an expression node, the node itself
included — the kinds that the CPython `ast.walk` would yield from this
subtree.  (`ast.walk` is breadth-first; only the set of kinds matters to
validation, so the model collects them in pre-order.) -/
def walkKinds : PyExpr → List NodeKind
  | .boolOp op values => .BoolOp :: op.kind :: walkKindsList values
  | .binOp l op r => .BinOp :: op.kind :: (walkKinds l ++ walkKinds r)
  | .unaryOp op v => .UnaryOp :: op.kind :: walkKinds v
  | .lam body => .Lambda :: walkKinds body
  | .ifExp t b e => .IfExp :: (walkKinds t ++ walkKinds b ++ walkKinds e)
  | .dict keys values => .Dict :: (walkKindsList keys ++ walkKindsList values)
  | .setDisplay elts => .Set :: walkKindsList elts
  | .comp kind elt => kind :: walkKinds elt
  | .compare l ops rs =>
      .Compare :: (walkKinds l ++ ops.map CmpOpKind.kind ++ walkKindsList rs)
  | .call f args kws =>
      .Call :: (walkKinds f ++ walkKindsList args ++ walkKindsKw kws)
  | .constant _ => [.Constant]
  | .attribute v _ => .Attribute :: .Load :: walkKinds v
  | .subscript v i => .Subscript :: .Load :: (walkKinds v ++ walkKinds i)
  | .starred v => .Starred :: walkKinds v
  | .name _ => [.Name, .Load]
  | .tuple elts => .TupleK :: .Load :: walkKindsList elts
  | .list elts => .ListK :: .Load :: walkKindsList elts
  | .namedExpr _ v => .NamedExpr :: walkKinds v
  | .sliceNode lo hi =>
      .Slice ::
        ((match lo with | none => [] | some e => walkKinds e) ++
         (match hi with | none => [] | some e => walkKinds e))
  | .joinedStr values => .JoinedStr :: walkKindsList values

/-- Kinds reachable from a list of sibling nodes. -/
def walkKindsList : List PyExpr → List NodeKind
  | [] => []
  | e :: es => walkKinds e ++ walkKindsList es

/-- Kinds reachable from `Call` keyword arguments (each contributes a
CPython `keyword` node plus the subtree of its value). -/
def walkKindsKw : List (String × PyExpr) → List NodeKind
  | [] => []
  | (_, e) :: es => .KeywordArg :: walkKinds e ++ walkKindsKw es
end

/-- `_validate_ast` applied to an already-parsed tree
(`src/solver/equation_parser.py`, lines 108–112): walk the tree and fail
on the first node whose kind is outside the allow-list. -/
def validateAstTree (tree : PyExpr) : Except String Unit :=
  match (walkKinds tree).find? (fun k => !allowedKind k) with
  | some k => .error ("Disallowed construct in expression: " ++ k.pyName)
  | none => .ok ()

/-- `_validate_ast` (`src/solver/equation_parser.py`, lines 94–112).
The input models the outcome of `ast.parse(expression, mode="eval")`:
`none` is a `SyntaxError` (re-raised as a parse error), `some tree` is a
successful parse. -/
def validate_ast (parsed : Option PyExpr) : Except String Unit :=
  match parsed with
  | none => .error "Syntax error in expression"
  | some tree => validateAstTree tree

/-- Runtime values of the sandboxed evaluator: scalars, (numpy/tuple/list)
sequences, and the callables bound in the safe-math namespace.  The
safe-math callables (numpy universal functions) are external real-valued
functions; they are modelled as arbitrary scalar functions. -/
inductive Value where
  | num (q : ℚ)
  | arr (elems : List Value)
  | fnv (f : ℚ → ℚ)

/-- An evaluation namespace: what a Python dict of local bindings exposes
to `eval` — a lookup from identifier to value. -/
def Ns : Type := String → Option Value

/-- The dict merge `{**base, **extra}` as seen by lookups: bindings of
`extra` win. -/
def nsMerge (base extra : Ns) : Ns :=
  fun k => match extra k with
    | some v => some v
    | none => base k

/-- Adding one binding on top of a namespace (`{**ns, key: v}`). -/
def bindVar (ns : Ns) (key : String) (v : Value) : Ns :=
  fun k => if k = key then some v else ns k

/-- A parameter map `dict[str, float]` viewed as a namespace of scalars. -/
def numNs (p : String → Option ℚ) : Ns :=
  fun k => (p k).map Value.num

/-- Python truthiness of a sandbox value.  numpy arrays of size other than
one raise; the model treats every `arr` as ambiguous, which no claim
touches. -/
def truthy : Value → Except String Bool
  | .num q => .ok (decide (q ≠ 0))
  | .arr _ => .error "truth value of an array is ambiguous"
  | .fnv _ => .ok true

/-- `float(v)` applied to a sandbox value. -/
def toFloat : Value → Except String ℚ
  | .num q => .ok q
  | .arr _ => .error "float argument must be a real number"
  | .fnv _ => .error "float argument must be a real number"

/-- Binary arithmetic on sandbox values.  Only scalar-scalar arithmetic is
modelled (numpy broadcasting is out of scope of every claim); float
power with a non-integral exponent has no rational counterpart and is
modelled as an error. -/
def applyBin (op : BinOpKind) : Value → Value → Except String Value
  | .num a, .num b =>
    match op with
    | .add => .ok (.num (a + b))
    | .sub => .ok (.num (a - b))
    | .mult => .ok (.num (a * b))
    | .div => if b = 0 then .error "float division by zero" else .ok (.num (a / b))
    | .floorDiv =>
        if b = 0 then .error "float floor division by zero"
        else .ok (.num ((⌊a / b⌋ : ℤ) : ℚ))
    | .mod =>
        if b = 0 then .error "float modulo" else .ok (.num (a - b * (⌊a / b⌋ : ℤ)))
    | .pow =>
        if b.den = 1 then
          if 0 ≤ b.num then .ok (.num (a ^ b.num.toNat))
          else if a = 0 then .error "zero cannot be raised to a negative power"
          else .ok (.num (a ^ b.num))
        else .error "non-integral exponent is not modelled"
    | _ => .error "unsupported operand type"
  | _, _ => .error "unsupported operand type"

/-- Unary arithmetic on sandbox values. -/
def applyUnary (op : UnaryOpKind) : Value → Except String Value
  | .num a =>
    match op with
    | .uadd => .ok (.num a)
    | .usub => .ok (.num (-a))
    | _ => .error "unsupported unary operand"
  | _ => .error "unsupported unary operand"

/-- One comparison step on sandbox values (scalar-scalar only). -/
def cmpVal (op : CmpOpKind) : Value → Value → Except String Bool
  | .num a, .num b =>
    match op with
    | .eq => .ok (decide (a = b))
    | .notEq => .ok (decide (a ≠ b))
    | .lt => .ok (decide (a < b))
    | .ltE => .ok (decide (a ≤ b))
    | .gt => .ok (decide (b < a))
    | .gtE => .ok (decide (b ≤ a))
    | _ => .error "comparison not modelled"
  | _, _ => .error "comparison not modelled"

mutual

/-- Modelled from the spec: the CPython `eval` of a compiled sandbox
expression against `("__builtins__": empty, locals = ns)` — `evaluate
(compiled, variables, parameters) → scalar` of §4.1, restricted to the
closed `PyExpr` tree.  Evaluation order and error propagation follow the
CPython expression semantics; numpy-specific behaviours (broadcasting,
array truthiness) that no claim depends on are conservatively modelled as
errors. -/
def evalExpr : PyExpr → Ns → Except String Value
  | .constant q, _ => .ok (.num q)
  | .name id, ns =>
    match ns id with
    | some v => .ok v
    | none => .error ("name " ++ id ++ " is not defined")
  | .binOp l op r, ns => do
    let va ← evalExpr l ns
    let vb ← evalExpr r ns
    applyBin op va vb
  | .unaryOp op v, ns => do
    let va ← evalExpr v ns
    applyUnary op va
  | .boolOp op values, ns => evalBoolChain op values ns
  | .ifExp t b e, ns => do
    let vt ← evalExpr t ns
    let bt ← truthy vt
    if bt then evalExpr b ns else evalExpr e ns
  | .compare l ops rs, ns => do
    let v ← evalExpr l ns
    evalCmpChain v ops rs ns
  | .call f args kws, ns => do
    let vf ← evalExpr f ns
    let vargs ← evalExprList args ns
    match kws with
    | _ :: _ => .error "keyword arguments are not supported"
    | [] =>
      match vf, vargs with
      | .fnv g, [.num q] => .ok (.num (g q))
      | .fnv _, _ => .error "invalid call arguments"
      | _, _ => .error "object is not callable"
  | .subscript v i, ns => do
    let vv ← evalExpr v ns
    let vi ← evalExpr i ns
    match vv, vi with
    | .arr l, .num q =>
      if q.den = 1 then
        let n : ℤ := q.num
        if 0 ≤ n then
          match l.get? n.toNat with
          | some e => .ok e
          | none => .error "index out of bounds"
        else
          match l.get? (l.length - (-n).toNat) with
          | some e => if (-n).toNat ≤ l.length then .ok e else .error "index out of bounds"
          | none => .error "index out of bounds"
      else .error "indices must be integers"
    | _, _ => .error "object is not subscriptable"
  | .tuple elts, ns => do
    let vs ← evalExprList elts ns
    .ok (.arr vs)
  | .list elts, ns => do
    let vs ← evalExprList elts ns
    .ok (.arr vs)
  | .attribute v _, ns => do
    let _ ← evalExpr v ns
    .error "attribute access is not modelled"
  | .lam _, _ => .error "construct not modelled"
  | .dict _ _, _ => .error "construct not modelled"
  | .setDisplay _, _ => .error "construct not modelled"
  | .comp _ _, _ => .error "construct not modelled"
  | .starred _, _ => .error "construct not modelled"
  | .namedExpr _ _, _ => .error "construct not modelled"
  | .sliceNode _ _, _ => .error "construct not modelled"
  | .joinedStr _, _ => .error "construct not modelled"
termination_by e _ => sizeOf e

/-- Left-to-right evaluation of sibling expressions. -/
def evalExprList : List PyExpr → Ns → Except String (List Value)
  | [], _ => .ok []
  | e :: es, ns => do
    let v ← evalExpr e ns
    let vs ← evalExprList es ns
    .ok (v :: vs)
termination_by l _ => sizeOf l

/-- Short-circuit `and`/`or` over the value list of a `BoolOp` (the
Python result is the last evaluated operand). -/
def evalBoolChain : BoolOpKind → List PyExpr → Ns → Except String Value
  | _, [], _ => .error "malformed boolean operation"
  | _, [e], ns => evalExpr e ns
  | op, e :: e2 :: es, ns => do
    let v ← evalExpr e ns
    let b ← truthy v
    match op with
    | .andOp => if b then evalBoolChain op (e2 :: es) ns else .ok v
    | .orOp => if b then .ok v else evalBoolChain op (e2 :: es) ns
termination_by _ l _ => sizeOf l

/-- Short-circuit comparison chain `a < b <= c …`; the Python boolean
results are modelled as the scalars 1 and 0 (`bool` is an int subtype and
is numerically indistinguishable in subsequent arithmetic). -/
def evalCmpChain : Value → List CmpOpKind → List PyExpr → Ns → Except String Value
  | _, [], _, _ => .ok (.num 1)
  | v, op :: ops, r :: rs, ns => do
    let vr ← evalExpr r ns
    let b ← cmpVal op v vr
    if b then evalCmpChain vr ops rs ns else .ok (.num 0)
  | _, _ :: _, [], _ => .error "malformed comparison"
termination_by _ _ rs _ => sizeOf rs

end

/-- Left-to-right effectful map over `Except` (the loop/`mapM` pattern of
the Python sources: stop at the first raised exception). -/
def mapE (g : α → Except ε β) : List α → Except ε (List β)
  | [] => .ok []
  | a :: l => do
    let b ← g a
    let bs ← mapE g l
    .ok (b :: bs)

/-- The right-hand-side closure `ode_func` built by `parse_expression`
(`src/solver/equation_parser.py`, lines 162–169): bind `x` and `y` on top
of the captured namespace, evaluate the compiled expression, then fill
`dydt[i] = y[i+1]` for `i < order-1` and `dydt[order-1] =
float(highest)`. -/
def odeRhs (tree : PyExpr) (ns : Ns) (order : ℕ) (x : ℚ) (y : List ℚ) :
    Except String (List ℚ) := do
  let localNs := bindVar (bindVar ns "x" (.num x)) "y" (.arr (y.map .num))
  let highest ← evalExpr tree localNs
  let shifted ← mapE (fun i =>
    match y.get? (i + 1) with
    | some v => Except.ok v
    | none => Except.error "index out of bounds") (List.range (order - 1))
  let hv ← toFloat highest
  if order = 0 then .error "index out of bounds"
  else .ok (shifted ++ [hv])

/-- `parse_expression` (`src/solver/equation_parser.py`, lines 115–171).
The `parsed` argument models the outcome of
`ast.parse(normalize_unicode_escapes(expression), mode="eval")`
(`none` = `SyntaxError`); `safeMath` is the `_SAFE_MATH` namespace of
external numpy callables and the constants `pi`, `e`; `parameters` is the
parameter dict.  Validation runs first, then the zero-filled test
evaluation (`_test_eval`), then the `ode_func` closure is returned. -/
def parse_expression (safeMath : Ns) (parsed : Option PyExpr) (order : ℕ)
    (parameters : String → Option ℚ) :
    Except String (ℚ → List ℚ → Except String (List ℚ)) :=
  match parsed with
  | none => .error "Syntax error in expression"
  | some tree =>
    match validateAstTree tree with
    | .error e => .error e
    | .ok () =>
      let ns : Ns := nsMerge safeMath (numNs parameters)
      let testNs := bindVar (bindVar ns "x" (.num 0)) "y"
        (.arr (List.replicate order (.num 0)))
      match evalExpr tree testNs with
      | .error e => .error ("Expression evaluation failed: " ++ e)
      | .ok _ => .ok (odeRhs tree ns order)

/-- The recurrence closure `recur_func` built by
`parse_difference_expression` (`src/solver/equation_parser.py`,
lines 276–278). -/
def diffRhs (tree : PyExpr) (ns : Ns) (n : ℤ) (y : List ℚ) :
    Except String ℚ := do
  let localNs := bindVar (bindVar ns "n" (.num (n : ℚ))) "y" (.arr (y.map .num))
  let v ← evalExpr tree localNs
  toFloat v

/-- `parse_difference_expression` (`src/solver/equation_parser.py`,
lines 232–280): like `parse_expression` with the index variable `n` in
place of `x`, returning a scalar-valued recurrence callable. -/
def parse_difference_expression (safeMath : Ns) (parsed : Option PyExpr)
    (order : ℕ) (parameters : String → Option ℚ) :
    Except String (ℤ → List ℚ → Except String ℚ) :=
  match parsed with
  | none => .error "Syntax error in expression"
  | some tree =>
    match validateAstTree tree with
    | .error e => .error e
    | .ok () =>
      let ns : Ns := nsMerge safeMath (numNs parameters)
      let testNs := bindVar (bindVar ns "n" (.num 0)) "y"
        (.arr (List.replicate order (.num 0)))
      match evalExpr tree testNs with
      | .error e => .error ("Expression evaluation failed: " ++ e)
      | .ok _ => .ok (diffRhs tree ns)

/-- One component block of the vector closure
(`src/solver/equation_parser.py`, lines 450–454): the shift entries
`dydt[i*order+k] = y[i*order+k+1]` for `k < order-1`, then the evaluated
highest derivative at `dydt[i*order+order-1]`. -/
def vecBlock (tree : PyExpr) (localNs : Ns) (order : ℕ) (y : List ℚ)
    (i : ℕ) : Except String (List ℚ) := do
  let shifted ← mapE (fun k =>
    match y.get? (i * order + k + 1) with
    | some v => Except.ok v
    | none => Except.error "index out of bounds") (List.range (order - 1))
  let highest ← evalExpr tree localNs
  let hv ← toFloat highest
  if order = 0 then .error "index out of bounds"
  else .ok (shifted ++ [hv])

/-- The vector right-hand-side closure `ode_func` built by
`parse_vector_expression` (`src/solver/equation_parser.py`,
lines 446–456): the derivative is assembled block by block, one block per
component. -/
def vecRhs (trees : List PyExpr) (ns : Ns) (order : ℕ) (x : ℚ)
    (y : List ℚ) : Except String (List ℚ) := do
  let localNs := bindVar (bindVar ns "x" (.num x)) "y" (.arr (y.map .num))
  let blocks ← mapE (fun p => vecBlock p.2 localNs order y p.1) trees.enum
  .ok blocks.flatten

/-- `parse_vector_expression` (`src/solver/equation_parser.py`,
lines 394–458): every expression of the list is validated (and modelled
as already unicode-normalized and parsed), the zero-state test evaluation
runs once per component, and the block-assembled closure is returned. -/
def parse_vector_expression (safeMath : Ns)
    (parsedList : List (Option PyExpr)) (order : ℕ)
    (parameters : String → Option ℚ) :
    Except String (ℚ → List ℚ → Except String (List ℚ)) :=
  if parsedList.isEmpty then
    .error "vector_expressions must have at least one expression"
  else
    match mapE (fun p =>
      match p with
      | none => Except.error "Syntax error in expression"
      | some tree =>
        match validateAstTree tree with
        | .error e => Except.error e
        | .ok () => Except.ok tree) parsedList with
    | .error e => .error e
    | .ok trees =>
      let ns : Ns := nsMerge safeMath (numNs parameters)
      let stateSize := trees.length * order
      let testNs := bindVar (bindVar ns "x" (.num 0)) "y"
        (.arr (List.replicate stateSize (.num 0)))
      match mapE (fun p =>
        match evalExpr p.2 testNs with
        | .error e => Except.error
            ("Expression " ++ toString p.1 ++ " evaluation failed: " ++ e)
        | .ok _ => Except.ok ()) trees.enum with
      | .error e => .error e
      | .ok _ => .ok (vecRhs trees ns order)

/-- The error taxonomy of the equation resolver: `ValueError` for usage
errors, `EquationParseError` for parse/resolution failures. -/
inductive ResolveError where
  | valueError (msg : String)
  | parseError (msg : String)
deriving DecidableEq, Repr

/-- `get_ode_function` (`src/solver/equation_parser.py`, lines 174–229).
`equationsModule` models the registry of native functions defined in
`config/equations.py` (`none` = attribute not found); a registered
function receives `(x, y, **params)`. -/
def get_ode_function (safeMath : Ns)
    (equationsModule : String → Option
      (ℚ → List ℚ → (String → Option ℚ) → Except String (List ℚ)))
    (expression : Option (Option PyExpr)) (function_name : Option String)
    (order : ℕ) (parameters : String → Option ℚ) :
    Except ResolveError (ℚ → List ℚ → Except String (List ℚ)) :=
  match expression, function_name with
  | some _, some _ =>
    .error (.valueError "Provide either expression or function_name, not both")
  | none, none =>
    .error (.valueError "Provide either expression or function_name")
  | some e, none =>
    match parse_expression safeMath e order parameters with
    | .error m => .error (.parseError m)
    | .ok f => .ok f
  | none, some fname =>
    match equationsModule fname with
    | none => .error (.parseError
        ("Function " ++ fname ++ " not found in config.equations"))
    | some f => .ok (fun x y => f x y parameters)

/-- `get_difference_function` (`src/solver/equation_parser.py`,
lines 283–340), with the registry of `config/difference_equations.py`
passed in as `diffModule`. -/
def get_difference_function (safeMath : Ns)
    (diffModule : String → Option
      (ℤ → List ℚ → (String → Option ℚ) → Except String ℚ))
    (expression : Option (Option PyExpr)) (function_name : Option String)
    (order : ℕ) (parameters : String → Option ℚ) :
    Except ResolveError (ℤ → List ℚ → Except String ℚ) :=
  match expression, function_name with
  | some _, some _ =>
    .error (.valueError "Provide either expression or function_name, not both")
  | none, none =>
    .error (.valueError "Provide either expression or function_name")
  | some e, none =>
    match parse_difference_expression safeMath e order parameters with
    | .error m => .error (.parseError m)
    | .ok f => .ok f
  | none, some fname =>
    match diffModule fname with
    | none => .error (.parseError ("Function " ++ fname ++ " not found in config"))
    | some f => .ok (fun n y => f n y parameters)

/-- A Python float argument: finite value, signed infinity, or NaN
(`validators.py` distinguishes exactly these through `math.isfinite`). -/
inductive PyFloat where
  | fin (q : ℚ)
  | inf
  | ninf
  | nan
deriving DecidableEq, Repr

/-- `_is_finite` (`src/solver/validators.py`, lines 152–157). -/
def is_finite : PyFloat → Bool
  | .fin _ => true
  | _ => false

/-- IEEE `>=` on Python floats (any comparison with NaN is false). -/
def pyGe : PyFloat → PyFloat → Bool
  | .nan, _ => false
  | _, .nan => false
  | .inf, _ => true
  | .ninf, .ninf => true
  | .ninf, _ => false
  | .fin _, .inf => false
  | .fin _, .ninf => true
  | .fin a, .fin b => decide (b ≤ a)

/-- The tuple `SOLVER_METHODS` of `src/config/constants.py`, lines 8–15. -/
def SOLVER_METHODS : List String :=
  ["RK45", "RK23", "DOP853", "Radau", "BDF", "LSODA"]

/-- `_validate_domain` (`src/solver/validators.py`, lines 14–29).
Diagnostic strings keep the fixed text of the message; the interpolated
float reprs are not modelled (no claim depends on them). -/
def validate_domain (x_min x_max : PyFloat) : List String :=
  (if pyGe x_min x_max then ["x_min must be less than x_max"] else []) ++
  (if !(is_finite x_min && is_finite x_max) then
    ["Domain bounds must be finite numbers"] else [])

/-- `_validate_initial_conditions` (`src/solver/validators.py`,
lines 32–52). -/
def validate_initial_conditions (y0 : List PyFloat) (expected_order : ℤ) :
    List String :=
  (if (y0.length : ℤ) ≠ expected_order then
    ["Expected as many initial conditions as the order"] else []) ++
  y0.enum.filterMap (fun p =>
    if is_finite p.2 then none
    else some ("Initial condition y0[" ++ toString p.1 ++
      "] is not a finite number"))

/-- `_validate_grid` (`src/solver/validators.py`, lines 55–69). -/
def validate_grid (num_points : ℤ) : List String :=
  (if num_points < 10 then ["Number of points must be at least 10"] else []) ++
  (if num_points > 1000000 then
    ["Number of points must not exceed 1,000,000"] else [])

/-- `_validate_method` (`src/solver/validators.py`, lines 72–83). -/
def validate_method (method : String) : List String :=
  if !(SOLVER_METHODS.contains method) then ["Unknown method " ++ method]
  else []

/-- The expression argument of the validator: whether the stripped text
is empty, and the outcome of parsing the normalized text. -/
structure ExprInput where
  isEmptyText : Bool
  parsed : Option PyExpr

/-- `validate_expression` (`src/solver/equation_parser.py`,
lines 521–538): empty check, then AST validation of the
unicode-normalized, stripped text. -/
def validate_expression (e : ExprInput) : List String :=
  if e.isEmptyText then ["Expression is empty"]
  else
    match validate_ast e.parsed with
    | .error m => [m]
    | .ok () => []

/-- `_validate_parameters` (`src/solver/validators.py`, lines 98–111). -/
def validate_parameters (params : List (String × PyFloat)) : List String :=
  params.filterMap (fun p =>
    if is_finite p.2 then none
    else some ("Parameter " ++ p.1 ++ " is not a finite number"))

/-- `validate_all_inputs` (`src/solver/validators.py`, lines 114–149):
the concatenation, in source order, of every sub-validation; the
parameter check is skipped when the dict is `None` or empty (`if
params:`). -/
def validate_all_inputs (expression : ExprInput) (order : ℤ)
    (x_min x_max : PyFloat) (y0 : List PyFloat) (num_points : ℤ)
    (method : String) (params : List (String × PyFloat)) : List String :=
  validate_expression expression ++
  validate_domain x_min x_max ++
  validate_initial_conditions y0 order ++
  validate_grid num_points ++
  validate_method method ++
  (if params.isEmpty then [] else validate_parameters params)

/-- The configuration collaborator (`config.get_env_from_schema`): the
solver defaults looked up by name in `solve_ode`/`solve_multipoint`. -/
structure SolverEnv where
  defaultMethod : String
  maxStep : ℚ
  rtol : ℚ
  atol : ℚ
  numPoints : ℕ

/-- The `OdeResult` returned by `scipy.integrate.solve_ivp`
(an external collaborator): sampled arrays plus diagnostics. -/
structure OdeResult where
  t : List ℚ
  y : List (List ℚ)
  success : Bool
  message : String
  nfev : ℕ

/-- The argument record of one `solve_ivp` call (`fun` passed
separately); `maxStepEff` is `none` for `np.inf`. -/
structure IvpCall where
  tSpan : ℚ × ℚ
  y0 : List ℚ
  method : String
  tEval : List ℚ
  maxStepEff : Option ℚ
  rtol : ℚ
  atol : ℚ

/-- The container `ODESolution` (`src/solver/ode_solver.py`,
lines 16–36); the `raw` field only mirrors the SciPy result and is not
modelled. -/
structure ODESolution where
  x : List ℚ
  y : List (List ℚ)
  success : Bool
  message : String
  methodUsed : String
  nEval : ℕ

/-- `np.linspace(a, b, n)` on exact rationals. -/
def linspace (a b : ℚ) (n : ℕ) : List ℚ :=
  if n ≤ 1 then List.replicate n a
  else (List.range n).map (fun i : ℕ => a + (i : ℚ) * (b - a) / ((n : ℚ) - 1))

/-- The type of the external adaptive integrator
(`scipy.integrate.solve_ivp`): right-hand side plus call record to
result. -/
def Integrator : Type :=
  (ℚ → List ℚ → Except String (List ℚ)) → IvpCall → OdeResult

/-- `solve_ode` (`src/solver/ode_solver.py`, lines 39–119): fill the
defaults from the environment schema, make exactly one integrator call,
package the result, and raise `SolverFailedError` with the integrator
diagnostic when the integrator reports failure. -/
def solve_ode (env : SolverEnv) (integ : Integrator)
    (ode_func : ℚ → List ℚ → Except String (List ℚ)) (t_span : ℚ × ℚ)
    (y0 : List ℚ) (method : Option String) (t_eval : Option (List ℚ))
    (max_step rtol atol : Option ℚ) : Except String ODESolution :=
  let method := method.getD env.defaultMethod
  let max_step := max_step.getD env.maxStep
  let rtol := rtol.getD env.rtol
  let atol := atol.getD env.atol
  let t_eval := t_eval.getD (linspace t_span.1 t_span.2 env.numPoints)
  let effectiveMaxStep : Option ℚ := if max_step ≤ 0 then none else some max_step
  let sol := integ ode_func
    ⟨t_span, y0, method, t_eval, effectiveMaxStep, rtol, atol⟩
  let result : ODESolution :=
    ⟨sol.t, sol.y, sol.success, sol.message, method, sol.nfev⟩
  if !sol.success then
    .error ("Solver failed (" ++ method ++ "): " ++ sol.message)
  else .ok result

/-- The type of the external root finder `scipy.optimize.fsolve` with
`full_output=True`: residual function and initial guess to
`(solution, ier, message)`. -/
def RootFinder : Type :=
  (List ℚ → List ℚ) → List ℚ → (List ℚ × ℤ × String)

/-- `solve_multipoint` (`src/solver/ode_solver.py`, lines 122–218).
Conditions are `(componentIndex, x_i, target)` triples.  When every
condition sits within `1e-12` of `x_min` the function reduces to
`solve_ode` on `y0` sorted by component index; otherwise the shooting
branch drives the interpolated residuals to zero through the external
root finder (`np.interp` is the external `interpExt`). -/
def solve_multipoint (env : SolverEnv) (integ : Integrator)
    (fsolveExt : RootFinder) (interpExt : ℚ → List ℚ → List ℚ → ℚ)
    (ode_func : ℚ → List ℚ → Except String (List ℚ))
    (conditions : List (ℕ × ℚ × ℚ)) (order : ℕ) (x_min x_max : ℚ)
    (method : Option String) (t_eval : Option (List ℚ))
    (max_step rtol atol : Option ℚ) : Except String ODESolution :=
  let method := method.getD env.defaultMethod
  let max_step := max_step.getD env.maxStep
  let rtol := rtol.getD env.rtol
  let atol := atol.getD env.atol
  let effectiveMaxStep : Option ℚ := if max_step ≤ 0 then none else some max_step
  let t_eval := t_eval.getD (linspace x_min x_max env.numPoints)
  let allAtStart :=
    conditions.all (fun c => |c.2.1 - x_min| < 1 / 1000000000000)
  if allAtStart then
    let y0 := (conditions.mergeSort
      (fun c c2 => decide (c.1 ≤ c2.1))).map (fun c => c.2.2)
    solve_ode env integ ode_func (x_min, x_max) y0 (some method)
      (some t_eval) (some max_step) (some rtol) (some atol)
  else
    let y0_guess := conditions.foldl
      (fun acc c => acc.set c.1 c.2.2) (List.replicate order (0 : ℚ))
    let x_max_needed := (conditions.map (fun c => c.2.1)).foldl max x_max
    let n_fine := max 2000 (t_eval.length * 2)
    let t_eval_fine := linspace x_min x_max_needed n_fine
    let residuals : List ℚ → List ℚ := fun y0v =>
      let sol := integ ode_func
        ⟨(x_min, x_max_needed), y0v, method, t_eval_fine, effectiveMaxStep,
          rtol, atol⟩
      if !sol.success then
        List.replicate conditions.length ((10 : ℚ) ^ (10 : ℕ))
      else
        conditions.map (fun c =>
          interpExt c.2.1 sol.t (sol.y.getD c.1 []) - c.2.2)
    let fsres := fsolveExt residuals y0_guess
    if fsres.2.1 ≠ 1 then
      .error ("Shooting method did not converge: " ++ fsres.2.2)
    else
      solve_ode env integ ode_func (x_min, x_max) fsres.1 (some method)
        (some t_eval) (some max_step) (some rtol) (some atol)

/-- The container `DifferenceSolution` (`src/solver/difference_solver.py`,
lines 15–29).  The numpy array `y` of shape `(order, n_points)` is
modelled column-wise: entry `i` of the list is the window recorded as
column `i`. -/
structure DifferenceSolution where
  n : List ℚ
  y : List (List ℚ)
  success : Bool
  message : String
deriving DecidableEq, Repr

/-- The iteration loop of `solve_difference`
(`src/solver/difference_solver.py`, lines 71–97): step `i` evaluates the
recurrence at `n_min + i - 1`, shifts the window, and records it as
column `i`.  On an exception the function returns `n_arr[: i + 1]` and
`y_arr[:, : i + 1]` — the columns written so far plus the still
zero-filled column `i` of the preallocated array — with `success=False`
and the exception text.  The first argument counts the iterations still
to run (`n_points - i`). -/
def diffLoop (f : ℤ → List ℚ → Except String ℚ) (n_min : ℤ)
    (nArr : List ℚ) (order : ℕ) :
    ℕ → ℕ → List ℚ → List (List ℚ) → DifferenceSolution
  | 0, _, _, acc => ⟨nArr, acc, true, "Solved successfully"⟩
  | rem + 1, i, state, acc =>
    match f (n_min + i - 1) state with
    | .error e =>
      ⟨nArr.take (i + 1), acc ++ [List.replicate order 0], false, e⟩
    | .ok next =>
      let st := state.tail ++ [next]
      diffLoop f n_min nArr order rem (i + 1) st (acc ++ [st])

/-- `np.arange(n_min, n_min + count, dtype=float)` on exact rationals. -/
def arangeQ (n_min : ℤ) (count : ℕ) : List ℚ :=
  (List.range count).map (fun i : ℕ => ((n_min + (i : ℤ) : ℤ) : ℚ))

/-- `solve_difference` (`src/solver/difference_solver.py`, lines 32–97).
A degenerate domain returns a failed solution with empty arrays before
any call of the recurrence. -/
def solve_difference (recur_func : ℤ → List ℚ → Except String ℚ)
    (n_min n_max : ℤ) (y0 : List ℚ) (order : ℕ) : DifferenceSolution :=
  if n_min ≥ n_max then
    ⟨[], [], false, "n_min must be less than n_max"⟩
  else
    let nPoints := (n_max - n_min).toNat + 1
    let nArr := arangeQ n_min nPoints
    let state0 := y0.take order
    diffLoop recur_func n_min nArr order (nPoints - 1) 1 state0 [state0]

/-- The container `PDESolution` (`src/solver/pde_solver.py`, lines 20–36)
for the 2-D case; `u` is the `(ny, nx)` field, row `j` column `i`. -/
structure PDESolution where
  gridX : List ℚ
  gridY : List ℚ
  u : List (List ℚ)
  success : Bool
  message : String
  nEval : ℕ
deriving DecidableEq, Repr

/-- `k_idx` (`src/solver/pde_solver.py`, lines 104–105). -/
def kIdx (nx i j : ℕ) : ℕ := (j - 1) * (nx - 2) + (i - 1)

/-- The interior nodes `(i, j)` in the enumeration order of the assembly
loops (`for j in range(1, ny-1): for i in range(1, nx-1)`, lines
112–113), linearized so that position `k` holds the node with
`k_idx(i, j) = k`. -/
def interiorList (nx ny : ℕ) : List (ℕ × ℕ) :=
  (List.range ((nx - 2) * (ny - 2))).map
    (fun k => (k % (nx - 2) + 1, k / (nx - 2) + 1))

/-- The coefficient that the COO assembly of `solve_pde_2d` (lines
114–146) gives to unknown `(i2, j2)` in the row of interior node
`(i, j)`: the sum of every triplet appended for that pair (duplicate COO
entries are summed by `coo_matrix`). -/
def stencilCoef (nx ny : ℕ) (cx cy : ℚ) (i j i2 j2 : ℕ) : ℚ :=
  (if i2 = i ∧ j2 = j then 2 * (cx + cy) else 0) +
  (if 1 < i ∧ i2 = i - 1 ∧ j2 = j then -cx else 0) +
  (if i < nx - 2 ∧ i2 = i + 1 ∧ j2 = j then -cx else 0) +
  (if 1 < j ∧ i2 = i ∧ j2 = j - 1 then -cy else 0) +
  (if j < ny - 2 ∧ i2 = i ∧ j2 = j + 1 then -cy else 0)

/-- The boundary contribution that the row of interior node `(i, j)`
accumulates into `b[k]` (the `else` branches of lines 120–146): each
neighbour that falls on the boundary moves to the right-hand side with
the prefilled boundary field `uBC`. -/
def stencilRhs (nx ny : ℕ) (cx cy : ℚ) (uBC : ℕ → ℕ → ℚ) (i j : ℕ) : ℚ :=
  (if ¬ 1 < i then cx * uBC j (i - 1) else 0) +
  (if ¬ i < nx - 2 then cx * uBC j (i + 1) else 0) +
  (if ¬ 1 < j then cy * uBC (j - 1) i else 0) +
  (if ¬ j < ny - 2 then cy * uBC (j + 1) i else 0)

/-- Dot product of rational coefficient and unknown vectors. -/
def dotQ (u v : List ℚ) : ℚ := (List.zipWith (· * ·) u v).sum

/-- Select the first row with a non-zero leading coefficient (the pivot)
and return it together with the remaining rows in order. -/
def pivotSplit : List (List ℚ × ℚ) → Option ((List ℚ × ℚ) × List (List ℚ × ℚ))
  | [] => none
  | r :: rs =>
    if r.1.headI ≠ 0 then some (r, rs)
    else
      match pivotSplit rs with
      | none => none
      | some (p, rest) => some (p, r :: rest)

theorem pivotSplit_length :
    ∀ (l : List (List ℚ × ℚ)) p rest, pivotSplit l = some (p, rest) →
      rest.length + 1 = l.length := by
  intro l
  induction l with
  | nil => intro p rest h; simp [pivotSplit] at h
  | cons r rs ih =>
    intro p rest h
    rw [pivotSplit] at h
    by_cases hr : r.1.headI ≠ 0
    · rw [if_pos hr] at h
      cases h
      simp
    · rw [if_neg hr] at h
      cases hps : pivotSplit rs with
      | none => rw [hps] at h; cases h
      | some pr =>
        obtain ⟨p2, rest2⟩ := pr
        rw [hps] at h
        cases h
        have := ih _ _ hps
        simp only [List.length_cons] at this ⊢
        omega

/-- Modelled from the spec: one elimination step per unit of fuel; the
fuel starts at the number of rows and each step removes the pivot row, so
the `0, _ :: _` case is unreachable from `gaussSolve`. -/
def gaussElim : ℕ → List (List ℚ × ℚ) → Option (List ℚ)
  | _, [] => some []
  | 0, _ :: _ => none
  | fuel + 1, r :: rs =>
    match pivotSplit (r :: rs) with
    | none => none
    | some (p, rest) =>
      match p.1 with
      | [] => none
      | a0 :: arest =>
        let reduced := rest.map (fun rr =>
          match rr.1 with
          | [] => ([], rr.2)
          | c0 :: crest =>
            (List.zipWith (fun c a => c - c0 / a0 * a) crest arest,
             rr.2 - c0 / a0 * p.2))
        match gaussElim fuel reduced with
        | none => none
        | some xs => some ((p.2 - dotQ arest xs) / a0 :: xs)

/-- Modelled from the spec: `scipy.sparse.linalg.spsolve`, the external
direct sparse solver — "the system is assembled sparse and solved
directly" (§4.6) — modelled as exact Gaussian elimination over the
rationals (`none` models the solver raising on a singular system). -/
def gaussSolve (rows : List (List ℚ × ℚ)) : Option (List ℚ) :=
  gaussElim rows.length rows

/-- The prefilled boundary field of `solve_pde_2d` (lines 85–88): the
supplied `bc_values` array, or the zero Dirichlet default. -/
def bcField (bc : Option (ℕ → ℕ → ℚ)) : ℕ → ℕ → ℚ :=
  fun j i =>
    match bc with
    | some b => b j i
    | none => 0

/-- Entry `[j][i]` of a field stored as a list of rows. -/
def fieldAt (u : List (List ℚ)) (j i : ℕ) : ℚ := (u.getD j []).getD i 0

/-- `solve_pde_2d` (`src/solver/pde_solver.py`, lines 39–174) for the
Poisson stencil: validate the grid, prefill the field with the boundary
values (zero Dirichlet when absent), assemble the `(nx-2)(ny-2)` interior
rows — each row the five-point coefficients `stencilCoef` and the
right-hand side `stencilRhs + f(x_i, y_j)`, raising
`SolverFailedError` if the source callable raises — solve the sparse
system, and fill the interior of the field with the solution.  The
`n_interior ≤ 0` early return of lines 91–98 is unreachable once
`nx, ny ≥ 3` and is not modelled. -/
def solve_pde_2d (residual_func : ℚ → ℚ → Except String ℚ)
    (x_min x_max y_min y_max : ℚ) (nx ny : ℕ)
    (bc_values : Option (ℕ → ℕ → ℚ)) : Except String PDESolution :=
  if nx < 3 ∨ ny < 3 then
    .error "Grid must have at least 3 points per dimension"
  else
    let xg := linspace x_min x_max nx
    let yg := linspace y_min y_max ny
    let hx := if 1 < nx then (x_max - x_min) / ((nx : ℚ) - 1) else 1
    let hy := if 1 < ny then (y_max - y_min) / ((ny : ℚ) - 1) else 1
    let uBC : ℕ → ℕ → ℚ := bcField bc_values
    let cx := 1 / (hx * hx)
    let cy := 1 / (hy * hy)
    let interior := interiorList nx ny
    match mapE (fun p =>
      match residual_func (xg.getD p.1 0) (yg.getD p.2 0) with
      | .error e => Except.error ("Residual evaluation failed: " ++ e)
      | .ok fv => Except.ok (stencilRhs nx ny cx cy uBC p.1 p.2 + fv))
      interior with
    | .error e => .error e
    | .ok bvec =>
      let rows := List.zipWith (fun p bv =>
        (interior.map (fun p2 => stencilCoef nx ny cx cy p.1 p.2 p2.1 p2.2),
         bv)) interior bvec
      match gaussSolve rows with
      | none => .error "Linear solver failed"
      | some uflat =>
        let u := (List.range ny).map (fun j => (List.range nx).map (fun i =>
          if 1 ≤ i ∧ i ≤ nx - 2 ∧ 1 ≤ j ∧ j ≤ ny - 2 then
            uflat.getD (kIdx nx i j) 0
          else uBC j i))
        .ok ⟨xg, yg, u, true, "OK", 0⟩

/-- `solve_pde_2d_linear_poisson` (`src/solver/pde_solver.py`,
lines 177–205): zero Dirichlet boundary, source callable passed through
(`rhs_only` forwards only `(x, y)`). -/
def solve_pde_2d_linear_poisson (x_min x_max y_min y_max : ℚ) (nx ny : ℕ)
    (f_source : ℚ → ℚ → Except String ℚ) : Except String PDESolution :=
  solve_pde_2d (fun x y => f_source x y) x_min x_max y_min y_max nx ny none

instance [DecidableEq ε] [DecidableEq α] : DecidableEq (Except ε α) := fun a b =>
  match a, b with
  | .ok x, .ok y =>
    if h : x = y then .isTrue (by rw [h]) else .isFalse (by simp [h])
  | .error x, .error y =>
    if h : x = y then .isTrue (by rw [h]) else .isFalse (by simp [h])
  | .ok _, .error _ => .isFalse (by simp)
  | .error _, .ok _ => .isFalse (by simp)

/-- C9: for every call of the equation resolver (`get_ode_function` and
`get_difference_function`), supplying both an expression and a registered
function name, or neither, raises `ValueError` before any parsing or
numeric work (the outcome is a fixed usage error, for every registry,
namespace, order and parameter map); supplying exactly one never raises
`ValueError` — it produces a right-hand-side callable or fails only with
a parse error. -/
theorem resolver_requires_exactly_one_source :
    (∀ sm reg e fn k p, get_ode_function sm reg (some e) (some fn) k p =
      .error (.valueError "Provide either expression or function_name, not both")) ∧
    (∀ sm reg k p, get_ode_function sm reg none none k p =
      .error (.valueError "Provide either expression or function_name")) ∧
    (∀ sm reg e k p m, get_ode_function sm reg (some e) none k p ≠
      .error (.valueError m)) ∧
    (∀ sm reg fn k p m, get_ode_function sm reg none (some fn) k p ≠
      .error (.valueError m)) ∧
    (∀ sm reg e fn k p, get_difference_function sm reg (some e) (some fn) k p =
      .error (.valueError "Provide either expression or function_name, not both")) ∧
    (∀ sm reg k p, get_difference_function sm reg none none k p =
      .error (.valueError "Provide either expression or function_name")) ∧
    (∀ sm reg e k p m, get_difference_function sm reg (some e) none k p ≠
      .error (.valueError m)) ∧
    (∀ sm reg fn k p m, get_difference_function sm reg none (some fn) k p ≠
      .error (.valueError m)) := by
  refine ⟨fun _ _ _ _ _ _ => rfl, fun _ _ _ _ => rfl, ?_, ?_,
    fun _ _ _ _ _ _ => rfl, fun _ _ _ _ => rfl, ?_, ?_⟩
  · intro sm reg e k p m
    unfold get_ode_function
    cases h : parse_expression sm e k p <;> simp [h]
  · intro sm reg fn k p m
    unfold get_ode_function
    cases h : reg fn <;> simp [h]
  · intro sm reg e k p m
    unfold get_difference_function
    cases h : parse_difference_expression sm e k p <;> simp [h]
  · intro sm reg fn k p m
    unfold get_difference_function
    cases h : reg fn <;> simp [h]

/-- Witness for C9 at concrete inputs: both sources supplied is the fixed
usage error, and an expression-only call is never a `ValueError`. -/
theorem resolver_requires_exactly_one_source_witness :
    get_ode_function (fun _ => none) (fun _ => none)
        (some (some (.constant 0))) (some "f") 1 (fun _ => none) =
      .error (.valueError "Provide either expression or function_name, not both") ∧
    get_ode_function (fun _ => none) (fun _ => none)
        (some (some (.constant 0))) none 1 (fun _ => none) ≠
      .error (.valueError "Provide either expression or function_name") :=
  ⟨resolver_requires_exactly_one_source.1 _ _ _ _ _ _,
   resolver_requires_exactly_one_source.2.2.1 _ _ _ _ _ _⟩

/-- C8: `solve_ode` raises `SolverFailedError` carrying the diagnostic
message of the integrator exactly when the single underlying integrator
call reports failure; every `ODESolution` it actually returns has
`success = true`; and the outcome is a function of that one integrator
call alone (no retry layer). -/
theorem solve_ode_fails_iff_integrator_fails
    (env : SolverEnv) (integ : Integrator)
    (f : ℚ → List ℚ → Except String (List ℚ)) (span : ℚ × ℚ)
    (y0 : List ℚ) (m : Option String) (te : Option (List ℚ))
    (ms rt atl : Option ℚ) :
    let mth := m.getD env.defaultMethod
    let msv := ms.getD env.maxStep
    let call : IvpCall :=
      ⟨span, y0, mth, te.getD (linspace span.1 span.2 env.numPoints),
        if msv ≤ 0 then none else some msv, rt.getD env.rtol,
        atl.getD env.atol⟩
    let sol := integ f call
    ((∃ s, solve_ode env integ f span y0 m te ms rt atl = .ok s) ↔
      sol.success = true) ∧
    (∀ s, solve_ode env integ f span y0 m te ms rt atl = .ok s →
      s.success = true) ∧
    (sol.success = false →
      solve_ode env integ f span y0 m te ms rt atl =
        .error ("Solver failed (" ++ mth ++ "): " ++ sol.message)) ∧
    (∀ integ2 : Integrator, integ2 f call = integ f call →
      solve_ode env integ2 f span y0 m te ms rt atl =
        solve_ode env integ f span y0 m te ms rt atl) := by
  intro mth msv call sol
  have hdef : solve_ode env integ f span y0 m te ms rt atl =
      (if !sol.success then
        .error ("Solver failed (" ++ mth ++ "): " ++ sol.message)
      else .ok ⟨sol.t, sol.y, sol.success, sol.message, mth, sol.nfev⟩) := rfl
  refine ⟨?_, ?_, ?_, ?_⟩
  · constructor
    · rintro ⟨s, hs⟩
      rw [hdef] at hs
      by_cases h : sol.success
      · exact h
      · simp [h] at hs
    · intro h
      rw [hdef]
      simp [h]
  · intro s hs
    rw [hdef] at hs
    by_cases h : sol.success
    · simp [h] at hs
      rw [← hs]
    · simp [h] at hs
  · intro h
    rw [hdef]
    simp [h]
  · intro integ2 heq
    have hdef2 : solve_ode env integ2 f span y0 m te ms rt atl =
        (if !(integ2 f call).success then
          .error ("Solver failed (" ++ mth ++ "): " ++ (integ2 f call).message)
        else .ok ⟨(integ2 f call).t, (integ2 f call).y,
          (integ2 f call).success, (integ2 f call).message, mth,
          (integ2 f call).nfev⟩) := rfl
    rw [hdef, hdef2, heq]

/-- Witness for C8: a concretely failing integrator makes `solve_ode`
raise with the diagnostic attached, and a succeeding one returns a
solution with `success = true`. -/
theorem solve_ode_fails_iff_integrator_fails_witness :
    solve_ode ⟨"RK45", 0, 1, 1, 10⟩ (fun _ _ => ⟨[], [], false, "diverged", 7⟩)
        (fun _ y => .ok y) (0, 1) [1] none none none none none =
      .error ("Solver failed (RK45): diverged") ∧
    ∀ s, solve_ode ⟨"RK45", 0, 1, 1, 10⟩ (fun _ _ => ⟨[0], [[1]], true, "done", 7⟩)
        (fun _ y => .ok y) (0, 1) [1] none none none none none = .ok s →
      s.success = true :=
  ⟨by
    have h := (solve_ode_fails_iff_integrator_fails ⟨"RK45", 0, 1, 1, 10⟩
      (fun _ _ => ⟨[], [], false, "diverged", 7⟩) (fun _ y => .ok y) (0, 1)
      [1] none none none none none).2.2.1 rfl
    simpa using h,
   fun s hs => (solve_ode_fails_iff_integrator_fails ⟨"RK45", 0, 1, 1, 10⟩
      (fun _ _ => ⟨[0], [[1]], true, "done", 7⟩) (fun _ y => .ok y) (0, 1)
      [1] none none none none none).2.1 s hs⟩

/-- C1: sandbox parsing raises a parse error on a syntax error and
whenever the AST contains any node kind outside the fixed allow-list, for
every namespace, order and parameter map (so before any evaluation of the
expression, whose semantics the rejection never consults); an expression
that parses successfully contains only allow-listed node kinds. -/
theorem sandbox_rejects_disallowed_nodes :
    (∀ sm k p, parse_expression sm none k p =
      .error "Syntax error in expression") ∧
    (∀ t : PyExpr, validateAstTree t = .ok () ↔
      (walkKinds t).all allowedKind = true) ∧
    (∀ t : PyExpr, (walkKinds t).all allowedKind = false →
      ∃ msg, validateAstTree t = .error msg ∧
        ∀ sm k p, parse_expression sm (some t) k p = .error msg) ∧
    (∀ sm k p t f, parse_expression sm (some t) k p = .ok f →
      (walkKinds t).all allowedKind = true) := by
  have hchar : ∀ t : PyExpr, validateAstTree t = .ok () ↔
      (walkKinds t).all allowedKind = true := by
    intro t
    unfold validateAstTree
    cases hf : (walkKinds t).find? (fun k => !allowedKind k) with
    | none =>
      simp only [List.find?_eq_none] at hf
      simp only [List.all_eq_true]
      constructor
      · intro _ x hx
        have := hf x hx
        simpa using this
      · intro _
        trivial
    | some k =>
      have hk := List.find?_some hf
      have hmem := List.mem_of_find?_eq_some hf
      simp only [List.all_eq_true]
      constructor
      · intro h
        cases h
      · intro hall
        have := hall k hmem
        rw [this] at hk
        cases hk
  have hbad : ∀ t : PyExpr, (walkKinds t).all allowedKind = false →
      ∃ msg, validateAstTree t = .error msg ∧
        ∀ sm k p, parse_expression sm (some t) k p = .error msg := by
    intro t hall
    cases hv : validateAstTree t with
    | ok u =>
      cases u
      rw [(hchar t).mp hv] at hall
      cases hall
    | error msg =>
      refine ⟨msg, rfl, fun sm k p => ?_⟩
      simp only [parse_expression, hv]
  refine ⟨fun _ _ _ => rfl, hchar, hbad, ?_⟩
  intro sm k p t f hok
  cases hall : (walkKinds t).all allowedKind with
  | true => rfl
  | false =>
    obtain ⟨msg, _, herr⟩ := hbad t hall
    rw [herr sm k p] at hok
    cases hok

/-- Witness for C1: the anonymous-function expression `lambda: 0` is
rejected with a `Disallowed construct` parse error for every namespace,
order and parameter map, and the accepted expression `0` contains only
allow-listed nodes. -/
theorem sandbox_rejects_disallowed_nodes_witness :
    (∃ msg, validateAstTree (.lam (.constant 0)) = .error msg ∧
      ∀ sm k p, parse_expression sm (some (.lam (.constant 0))) k p =
        .error msg) ∧
    (walkKinds (.constant 0)).all allowedKind = true :=
  ⟨sandbox_rejects_disallowed_nodes.2.2.1 (.lam (.constant 0)) (by decide),
   by decide⟩

theorem mapE_eq_ok_map (g : α → Except ε β) (gg : α → β) :
    ∀ l : List α, (∀ a ∈ l, g a = .ok (gg a)) → mapE g l = .ok (l.map gg) := by
  intro l
  induction l with
  | nil => intro _; rfl
  | cons a l ih =>
    intro h
    have ha := h a (by simp)
    have hl := ih (fun b hb => h b (by simp [hb]))
    simp [mapE, ha, hl, Bind.bind, Except.bind]

theorem shiftLookup_ok (y : List ℚ) (k : ℕ) (hy : y.length = k) :
    mapE (fun i =>
      match y.get? (i + 1) with
      | some v => Except.ok v
      | none => Except.error "index out of bounds") (List.range (k - 1)) =
    .ok (y.drop 1) := by
  have hmap : mapE (fun i =>
      match y.get? (i + 1) with
      | some v => Except.ok v
      | none => Except.error "index out of bounds") (List.range (k - 1)) =
      .ok ((List.range (k - 1)).map (fun i => y.getD (i + 1) 0)) := by
    apply mapE_eq_ok_map
    intro i hi
    rw [List.mem_range] at hi
    have hlt : i + 1 < y.length := by omega
    have hv : y.get? (i + 1) = some (y.getD (i + 1) 0) := by
      rw [List.getD_eq_getElem?_getD, List.get?_eq_getElem?,
        List.getElem?_eq_getElem hlt]
      rfl
    rw [hv]
  rw [hmap]
  congr 1
  apply List.ext_getElem
  · simp
    omega
  · intro m h1 h2
    simp only [List.getElem_map, List.getElem_range, List.getElem_drop]
    have hlt : m + 1 < y.length := by simp at h1; omega
    rw [List.getD_eq_getElem?_getD, List.getElem?_eq_getElem hlt]
    simp [Nat.add_comm]

/-- The returned closure of `parse_expression`, in closed form: evaluate
the expression, convert to float, and append to the shifted state. -/
theorem odeRhs_eq (t : PyExpr) (ns : Ns) (k : ℕ) (hk : 1 ≤ k) (x : ℚ)
    (y : List ℚ) (hy : y.length = k) :
    odeRhs t ns k x y = (do
      let v ← evalExpr t (bindVar (bindVar ns "x" (.num x)) "y"
        (.arr (y.map .num)))
      let q ← toFloat v
      Except.ok (y.drop 1 ++ [q])) := by
  unfold odeRhs
  cases hev : evalExpr t (bindVar (bindVar ns "x" (.num x)) "y"
      (.arr (y.map .num))) with
  | error e => simp [hev, Bind.bind, Except.bind]
  | ok v =>
    rw [shiftLookup_ok y k hy]
    cases hfl : toFloat v with
    | error e => simp [hev, hfl, Bind.bind, Except.bind]
    | ok q =>
      have hk0 : ¬ k = 0 := by omega
      simp [hev, hfl, hk0, Bind.bind, Except.bind]

/-- C2: for every order `k ≥ 1`, every accepted expression, every `x` and
every state `y` of length `k`, the callable returned by
`parse_expression` is the order reduction
`f(x, y) = [y[1], …, y[k-1], e(x, y)]` (with the evaluation of `e` bound
to `x` and `y` and its failures propagated); in particular the
expression `0` resolves to `dydt = [y[1], …, y[k-1], 0]` for an arbitrary
state. -/
theorem parse_expression_order_reduction :
    (∀ sm parsed k p f, 1 ≤ k →
      parse_expression sm parsed k p = .ok f →
      ∀ x y, y.length = k →
        ∃ t, parsed = some t ∧
          f x y = (do
            let v ← evalExpr t (bindVar (bindVar (nsMerge sm (numNs p)) "x"
              (.num x)) "y" (.arr (y.map .num)))
            let q ← toFloat v
            Except.ok (y.drop 1 ++ [q]))) ∧
    (∀ sm k p x y, 1 ≤ k → y.length = k →
      ∃ f, parse_expression sm (some (.constant 0)) k p = .ok f ∧
        f x y = .ok (y.drop 1 ++ [0])) := by
  constructor
  · intro sm parsed k p f hk hok x y hy
    cases parsed with
    | none => cases hok
    | some t =>
      refine ⟨t, rfl, ?_⟩
      simp only [parse_expression] at hok
      cases hv : validateAstTree t with
      | error e => rw [hv] at hok; cases hok
      | ok u =>
        cases u
        rw [hv] at hok
        simp only at hok
        cases hev : evalExpr t (bindVar (bindVar (nsMerge sm (numNs p)) "x"
            (.num 0)) "y" (.arr (List.replicate k (.num 0)))) with
        | error e => rw [hev] at hok; cases hok
        | ok v =>
          rw [hev] at hok
          simp only at hok
          cases hok
          exact odeRhs_eq t _ k hk x y hy
  · intro sm k p x y hk hy
    refine ⟨odeRhs (.constant 0) (nsMerge sm (numNs p)) k, ?_, ?_⟩
    · simp [parse_expression, validateAstTree, walkKinds, allowedKind,
        evalExpr]
    · rw [odeRhs_eq _ _ _ hk x y hy]
      simp [evalExpr, toFloat, Bind.bind, Except.bind]

/-- Witness for C2: with order 2 and state `[5, 7]`, the expression `0`
resolves to the derivative `[7, 0]`. -/
theorem parse_expression_order_reduction_witness :
    ∃ f, parse_expression (fun _ => none) (some (.constant 0)) 2
        (fun _ => none) = .ok f ∧ f 3 [5, 7] = .ok [7, 0] := by
  obtain ⟨f, h1, h2⟩ := parse_expression_order_reduction.2 (fun _ => none) 2
    (fun _ => none) 3 [5, 7] (by norm_num) (by norm_num)
  exact ⟨f, h1, by simpa using h2⟩

/-- Lookups in the evaluation namespace after the reserved variables are
bound never see the parameter entries named like the reserved variables:
the merged namespaces of two parameter maps that agree away from the
reserved keys are equal. -/
theorem bindVars_agree (sm : Ns) (p1 p2 : String → Option ℚ) (vn : String)
    (hp : ∀ key, key ≠ vn → key ≠ "y" → p1 key = p2 key)
    (va vy : Value) :
    bindVar (bindVar (nsMerge sm (numNs p1)) vn va) "y" vy =
    bindVar (bindVar (nsMerge sm (numNs p2)) vn va) "y" vy := by
  funext key
  by_cases hy : key = "y"
  · simp [bindVar, hy]
  · by_cases hv : key = vn
    · simp [bindVar, hy, hv]
    · simp [bindVar, hy, hv, nsMerge, numNs, hp key hv hy]

/-- C10: in every expression evaluation the reserved bindings (`x` or
`n`, and the state vector `y`) are inserted into the namespace after the
parameter map, so two parameter maps differing only at the reserved keys
produce exactly the same resolved callable — the colliding parameter is
silently shadowed, and no component rejects it (the parameter validator
accepts any finite-valued parameter whatever its name). -/
theorem reserved_bindings_shadow_parameters :
    (∀ sm parsed order p1 p2,
      (∀ key, key ≠ "x" → key ≠ "y" → p1 key = p2 key) →
      parse_expression sm parsed order p1 =
        parse_expression sm parsed order p2) ∧
    (∀ sm parsed order p1 p2,
      (∀ key, key ≠ "n" → key ≠ "y" → p1 key = p2 key) →
      parse_difference_expression sm parsed order p1 =
        parse_difference_expression sm parsed order p2) ∧
    (∀ sm parsedList order p1 p2,
      (∀ key, key ≠ "x" → key ≠ "y" → p1 key = p2 key) →
      parse_vector_expression sm parsedList order p1 =
        parse_vector_expression sm parsedList order p2) ∧
    (∀ params : List (String × PyFloat), (∀ v ∈ params, is_finite v.2) →
      validate_parameters params = []) := by
  refine ⟨?_, ?_, ?_, ?_⟩
  · intro sm parsed order p1 p2 hp
    cases parsed with
    | none => rfl
    | some t =>
      have hode : odeRhs t (nsMerge sm (numNs p1)) order =
          odeRhs t (nsMerge sm (numNs p2)) order := by
        funext x y
        unfold odeRhs
        rw [bindVars_agree sm p1 p2 "x" hp (.num x) (.arr (y.map .num))]
      simp only [parse_expression]
      rw [bindVars_agree sm p1 p2 "x" hp (.num 0)
        (.arr (List.replicate order (.num 0))), hode]
  · intro sm parsed order p1 p2 hp
    cases parsed with
    | none => rfl
    | some t =>
      have hdiff : diffRhs t (nsMerge sm (numNs p1)) =
          diffRhs t (nsMerge sm (numNs p2)) := by
        funext n y
        unfold diffRhs
        rw [bindVars_agree sm p1 p2 "n" hp (.num (n : ℚ)) (.arr (y.map .num))]
      simp only [parse_difference_expression]
      rw [bindVars_agree sm p1 p2 "n" hp (.num 0)
        (.arr (List.replicate order (.num 0))), hdiff]
  · intro sm parsedList order p1 p2 hp
    simp only [parse_vector_expression]
    cases mapE (fun p =>
      match p with
      | none => Except.error "Syntax error in expression"
      | some tree =>
        match validateAstTree tree with
        | .error e => Except.error e
        | .ok () => Except.ok tree) parsedList with
    | error e => rfl
    | ok trees =>
      have hvec : vecRhs trees (nsMerge sm (numNs p1)) order =
          vecRhs trees (nsMerge sm (numNs p2)) order := by
        funext x y
        unfold vecRhs
        rw [bindVars_agree sm p1 p2 "x" hp (.num x) (.arr (y.map .num))]
      simp only
      rw [bindVars_agree sm p1 p2 "x" hp (.num 0)
        (.arr (List.replicate (trees.length * order) (.num 0))), hvec]
  · intro params hfin
    unfold validate_parameters
    rw [List.filterMap_eq_nil_iff]
    intro v hv
    simp [hfin v hv]

/-- Witness for C10: two parameter maps that differ only in the value
bound to the key `x` resolve the expression `x` to the same callable, and
a finite parameter named `x` passes the parameter validator. -/
theorem reserved_bindings_shadow_parameters_witness :
    parse_expression (fun _ => none) (some (.name "x")) 1
        (fun key => if key = "x" then some 1 else none) =
      parse_expression (fun _ => none) (some (.name "x")) 1
        (fun key => if key = "x" then some 2 else none) ∧
    validate_parameters [("x", .fin 5)] = [] :=
  ⟨reserved_bindings_shadow_parameters.1 (fun _ => none) (some (.name "x")) 1
      _ _ (fun key h1 _ => by simp [h1]),
   reserved_bindings_shadow_parameters.2.2.2 [("x", .fin 5)]
      (by intro v hv; simp at hv; simp [hv, is_finite])⟩

theorem validate_expression_nil (e : ExprInput) :
    validate_expression e = [] ↔
      e.isEmptyText = false ∧ validate_ast e.parsed = .ok () := by
  unfold validate_expression
  by_cases he : e.isEmptyText
  · simp [he]
  · simp only [he, if_false]
    cases hv : validate_ast e.parsed with
    | error m => simp [hv, he]
    | ok u => cases u; simp [hv, he]

theorem validate_domain_nil (x_min x_max : PyFloat) :
    validate_domain x_min x_max = [] ↔
      ∃ a b, x_min = .fin a ∧ x_max = .fin b ∧ a < b := by
  cases x_min <;> cases x_max <;>
    simp [validate_domain, pyGe, is_finite, not_le]

theorem validate_initial_conditions_nil (y0 : List PyFloat) (order : ℤ) :
    validate_initial_conditions y0 order = [] ↔
      (y0.length : ℤ) = order ∧ ∀ v ∈ y0, is_finite v = true := by
  unfold validate_initial_conditions
  rw [List.append_eq_nil]
  constructor
  · rintro ⟨h1, h2⟩
    refine ⟨?_, ?_⟩
    · by_contra hne
      simp [hne] at h1
    · intro v hv
      rw [List.filterMap_eq_nil_iff] at h2
      by_contra hfin
      have hmem : (⟨0, v⟩ : ℕ × PyFloat) ∈ y0.enum ∨ True := Or.inr trivial
      obtain ⟨i, hi⟩ := List.mem_iff_get.mp hv
      have : (i.1, v) ∈ y0.enum := by
        rw [List.mk_mem_enum_iff_getElem?]
        rw [← hi]
        simp
      have := h2 _ this
      simp [hfin] at this
  · rintro ⟨h1, h2⟩
    refine ⟨by simp [h1], ?_⟩
    rw [List.filterMap_eq_nil_iff]
    intro p hp
    have hv : p.2 ∈ y0 := by
      have := List.enum_map_snd y0
      have : p.2 ∈ y0.enum.map Prod.snd := List.mem_map_of_mem Prod.snd hp
      simpa [List.enum_map_snd] using this
    simp [h2 p.2 hv]

theorem validate_grid_nil (num_points : ℤ) :
    validate_grid num_points = [] ↔
      10 ≤ num_points ∧ num_points ≤ 1000000 := by
  unfold validate_grid
  rw [List.append_eq_nil]
  constructor
  · rintro ⟨h1, h2⟩
    constructor
    · by_contra h; simp [show num_points < 10 by omega] at h1
    · by_contra h; simp [show 1000000 < num_points by omega] at h2
  · rintro ⟨h1, h2⟩
    constructor
    · simp [show ¬ num_points < 10 by omega]
    · simp [show ¬ 1000000 < num_points by omega]

theorem validate_method_nil (method : String) :
    validate_method method = [] ↔ method ∈ SOLVER_METHODS := by
  unfold validate_method
  by_cases h : SOLVER_METHODS.contains method
  · simp [h, List.elem_iff.mp h]
  · simp only [h]
    simp
    intro hmem
    exact h (List.elem_iff.mpr hmem)

theorem validate_params_block_nil (params : List (String × PyFloat)) :
    (if params.isEmpty then [] else validate_parameters params) = [] ↔
      ∀ pv ∈ params, is_finite pv.2 = true := by
  by_cases he : params = []
  · simp [he]
  · rw [if_neg (by simp [List.isEmpty_eq_false.mpr he])]
    unfold validate_parameters
    rw [List.filterMap_eq_nil_iff]
    constructor
    · intro h pv hpv
      have := h pv hpv
      by_contra hfin
      simp [hfin] at this
    · intro h pv hpv
      simp [h pv hpv]

/-- C5 (amended): `validate_all_inputs` is a pure function (it is a total
function of its inputs, hence deterministic and non-raising) returning
the accumulated violations of the checks it actually performs, and its
result is empty exactly when all of the checked invariants hold:
expression valid, domain bounds finite and strictly increasing,
initial-condition count equal to the declared order with every value
finite, sample count within `[10, 1_000_000]`, method among the six
enumerated integrator identifiers, and every parameter value finite.  It
validates neither `order ≥ 1` nor any multipoint condition location (it
receives no condition list). -/
theorem validate_all_inputs_nil_iff (e : ExprInput) (order : ℤ)
    (x_min x_max : PyFloat) (y0 : List PyFloat) (num_points : ℤ)
    (method : String) (params : List (String × PyFloat)) :
    validate_all_inputs e order x_min x_max y0 num_points method params = []
    ↔ (e.isEmptyText = false ∧ validate_ast e.parsed = .ok () ∧
       (∃ a b, x_min = .fin a ∧ x_max = .fin b ∧ a < b) ∧
       (y0.length : ℤ) = order ∧ (∀ v ∈ y0, is_finite v = true) ∧
       10 ≤ num_points ∧ num_points ≤ 1000000 ∧
       method ∈ SOLVER_METHODS ∧
       (∀ pv ∈ params, is_finite pv.2 = true)) := by
  unfold validate_all_inputs
  simp only [List.append_eq_nil, validate_expression_nil, validate_domain_nil,
    validate_initial_conditions_nil, validate_grid_nil, validate_method_nil,
    validate_params_block_nil]
  tauto

/-- Counterexample to C5 as stated: with a valid expression, a valid
domain, valid sampling, a valid method, no parameters and `order = 0`
with an empty initial-condition list, the validator returns the empty
error list although the claimed invariant `order ≥ 1` fails (and no
multipoint-condition check exists: the function takes no condition
list). -/
theorem validate_all_inputs_missing_order_check :
    validate_all_inputs ⟨false, some (.constant 0)⟩ 0 (.fin 0) (.fin 1) []
      100 "RK45" [] = [] ∧ ¬ (1 ≤ (0 : ℤ)) := by
  constructor
  · decide
  · decide

/-- Witness for the amended C5: at the same degenerate input the
characterization confirms the empty error list via the checked
invariants. -/
theorem validate_all_inputs_nil_iff_witness :
    validate_all_inputs ⟨false, some (.constant 0)⟩ 0 (.fin 0) (.fin 1) []
      100 "RK45" [] = [] :=
  (validate_all_inputs_nil_iff ⟨false, some (.constant 0)⟩ 0 (.fin 0)
    (.fin 1) [] 100 "RK45" []).mpr (by
      refine ⟨rfl, by decide, ⟨0, 1, rfl, rfl, by norm_num⟩, by simp, ?_,
        by norm_num, by norm_num, by decide, ?_⟩
      · intro v hv; cases hv
      · intro pv hpv; cases hpv)

/-- The windows the iteration of `solve_difference` actually computes:
`diffState f n_min s0 j` is the window recorded as column `j` (the
initial window for `j = 0`; after `j` successful steps otherwise), or the
first error raised on the way. -/
def diffState (f : ℤ → List ℚ → Except String ℚ) (n_min : ℤ)
    (s0 : List ℚ) : ℕ → Except String (List ℚ)
  | 0 => .ok s0
  | j + 1 => do
    let s ← diffState f n_min s0 j
    let v ← f (n_min + j) s
    .ok (s.tail ++ [v])

theorem diffLoop_characterize (f : ℤ → List ℚ → Except String ℚ)
    (n_min : ℤ) (nArr : List ℚ) (order : ℕ) (s0 : List ℚ) :
    ∀ rem i state acc,
      1 ≤ i →
      diffState f n_min s0 (i - 1) = .ok state →
      acc.length = i →
      (∀ j, j < i → acc.get? j = (diffState f n_min s0 j).toOption) →
      ((∃ acc2, diffLoop f n_min nArr order rem i state acc =
          ⟨nArr, acc2, true, "Solved successfully"⟩ ∧
          acc2.length = i + rem ∧
          ∀ j, j < i + rem →
            acc2.get? j = (diffState f n_min s0 j).toOption) ∨
       (∃ idx m s cols, i ≤ idx ∧ idx < i + rem ∧
          diffState f n_min s0 (idx - 1) = .ok s ∧
          f (n_min + idx - 1) s = .error m ∧
          diffLoop f n_min nArr order rem i state acc =
            ⟨nArr.take (idx + 1), cols, false, m⟩ ∧
          cols.length = idx + 1 ∧
          (∀ j, j < idx →
            cols.get? j = (diffState f n_min s0 j).toOption) ∧
          cols.get? idx = some (List.replicate order 0))) := by
  intro rem
  induction rem with
  | zero =>
    intro i state acc hi hst hlen hget
    left
    exact ⟨acc, rfl, by omega, fun j hj => hget j (by omega)⟩
  | succ rem ih =>
    intro i state acc hi hst hlen hget
    rw [diffLoop]
    cases hf : f (n_min + i - 1) state with
    | error e =>
      right
      refine ⟨i, e, state, acc ++ [List.replicate order 0], le_refl i,
        by omega, hst, hf, rfl, by simp [hlen], ?_, ?_⟩
      · intro j hj
        rw [List.get?_append (by omega)]
        exact hget j (by omega)
      · rw [List.get?_append_right (by omega)]
        simp [hlen]
    | ok v =>
      have hcast : ((i - 1 : ℕ) : ℤ) = (i : ℤ) - 1 := by
        push_cast [hi]
        ring
      have hst2 : diffState f n_min s0 i = .ok (state.tail ++ [v]) := by
        have hi2 : i = (i - 1) + 1 := by omega
        rw [hi2]
        simp only [diffState, hst, hcast, Bind.bind, Except.bind]
        rw [show n_min + ((i : ℤ) - 1) = n_min + (i : ℤ) - 1 by ring, hf]
      have := ih (i + 1) (state.tail ++ [v]) (acc ++ [state.tail ++ [v]])
        (by omega) (by simpa using hst2) (by simp [hlen]) ?_
      · rcases this with ⟨acc2, heq, hlen2, hget2⟩ | ⟨idx, m, s, cols, h1, h2, h3, h4, h5, h6, h7, h8⟩
        · left
          exact ⟨acc2, heq, by omega, fun j hj => hget2 j (by omega)⟩
        · right
          exact ⟨idx, m, s, cols, by omega, by omega, h3, h4, h5, h6, h7, h8⟩
      · intro j hj
        by_cases hji : j < i
        · rw [List.get?_append (by omega)]
          exact hget j hji
        · have hji2 : j = i := by omega
          subst hji2
          rw [List.get?_append_right (by omega)]
          simp [hlen, hst2, Except.toOption]

/-- C6 (amended): a degenerate domain (`n_min ≥ n_max`) returns the fixed
failed solution with empty arrays, identically for every recurrence (so
the recurrence is never called); and when the iteration fails, the
returned solution carries `success = false`, the message of the raised
error, the index values through the failing step, and as `y` the columns
actually computed before the failing step followed by one zero-filled
column at the failing step position (the slice of the preallocated
array, one column beyond the computed history). -/
theorem solve_difference_partial_history :
    (∀ f n_min n_max (y0 : List ℚ) order, n_min ≥ n_max →
      solve_difference f n_min n_max y0 order =
        ⟨[], [], false, "n_min must be less than n_max"⟩) ∧
    (∀ f n_min n_max (y0 : List ℚ) order, n_min < n_max →
      (solve_difference f n_min n_max y0 order).success = false →
      ∃ idx m s cols, 1 ≤ idx ∧ idx ≤ (n_max - n_min).toNat ∧
        diffState f n_min (y0.take order) (idx - 1) = .ok s ∧
        f (n_min + idx - 1) s = .error m ∧
        solve_difference f n_min n_max y0 order =
          ⟨arangeQ n_min (idx + 1), cols, false, m⟩ ∧
        cols.length = idx + 1 ∧
        (∀ j, j < idx →
          cols.get? j = (diffState f n_min (y0.take order) j).toOption) ∧
        cols.get? idx = some (List.replicate order 0)) := by
  constructor
  · intro f n_min n_max y0 order h
    unfold solve_difference
    rw [if_pos h]
  · intro f n_min n_max y0 order h hfail
    have hnd : ¬ n_min ≥ n_max := by omega
    have hdef : solve_difference f n_min n_max y0 order =
        diffLoop f n_min (arangeQ n_min ((n_max - n_min).toNat + 1))
          order ((n_max - n_min).toNat + 1 - 1) 1 (y0.take order)
          [y0.take order] := by
      unfold solve_difference
      rw [if_neg hnd]
    have hchar := diffLoop_characterize f n_min
      (arangeQ n_min ((n_max - n_min).toNat + 1))
      order (y0.take order) ((n_max - n_min).toNat + 1 - 1) 1 (y0.take order)
      [y0.take order] (le_refl 1) (by simp [diffState]) (by simp) ?_
    · rcases hchar with ⟨acc2, heq, _, _⟩ |
        ⟨idx, m, s, cols, h1, h2, h3, h4, h5, h6, h7, h8⟩
      · rw [hdef, heq] at hfail
        cases hfail
      · refine ⟨idx, m, s, cols, h1, by omega, h3, h4, ?_, h6, h7, h8⟩
        rw [hdef, h5]
        congr 1
        unfold arangeQ
        rw [← List.map_take, List.take_range]
        congr 2
        omega
    · intro j hj
      have hj0 : j = 0 := by omega
      subst hj0
      simp [diffState, Except.toOption]

/-- Counterexample to C6 as stated: a recurrence failing at the very
first step has computed only the initial column `[1]`, yet the returned
`y` is `[[1], [0]]` — the partial history plus a zero-filled column that
was never computed. -/
theorem solve_difference_extra_zero_column :
    (solve_difference (fun _ _ => .error "boom") 0 2 [1] 1).y =
      [[1], [0]] ∧
    (solve_difference (fun _ _ => .error "boom") 0 2 [1] 1).y ≠ [[1]] := by
  constructor
  · decide
  · decide

/-- Witness for the amended C6: the failing-step characterization at the
concrete run above (failure at step 1, message `boom`, one computed
column plus the zero column), and the degenerate-domain clause at
`n_min = n_max = 3`. -/
theorem solve_difference_partial_history_witness :
    (∃ idx m s cols, 1 ≤ idx ∧ idx ≤ (2 - 0 : ℤ).toNat ∧
      diffState (fun _ _ => .error "boom") 0 (List.take 1 ([1] : List ℚ))
        (idx - 1) = .ok s ∧
      solve_difference (fun _ _ => .error "boom") 0 2 [1] 1 =
        ⟨arangeQ 0 (idx + 1), cols, false, m⟩ ∧
      cols.length = idx + 1 ∧
      (∀ j, j < idx → cols.get? j =
        (diffState (fun _ _ => .error "boom") 0 (List.take 1 ([1] : List ℚ))
          j).toOption) ∧
      cols.get? idx = some (List.replicate 1 0)) ∧
    solve_difference (fun _ _ => .error "nope") 3 3 [1] 1 =
      ⟨[], [], false, "n_min must be less than n_max"⟩ :=
  ⟨by
    obtain ⟨idx, m, s, cols, h1, h2, h3, _, h5, h6, h7, h8⟩ :=
      solve_difference_partial_history.2
        (fun _ _ => .error "boom") 0 2 [1] 1 (by norm_num) (by decide)
    exact ⟨idx, m, s, cols, h1, h2, h3, h5, h6, h7, h8⟩,
   solve_difference_partial_history.1 (fun _ _ => .error "nope") 3 3 [1] 1
     (le_refl 3)⟩

theorem mapE_ok_length (g : α → Except ε β) :
    ∀ (l : List α) (out : List β), mapE g l = .ok out →
      out.length = l.length := by
  intro l
  induction l with
  | nil => intro out h; cases h; rfl
  | cons a l ih =>
    intro out h
    simp only [mapE, Bind.bind, Except.bind] at h
    cases hg : g a with
    | error e => rw [hg] at h; cases h
    | ok b =>
      rw [hg] at h
      cases hl : mapE g l with
      | error e => rw [hl] at h; cases h
      | ok bs =>
        rw [hl] at h
        cases h
        simp [ih bs hl]

theorem mapE_ok_get (g : α → Except ε β) :
    ∀ (l : List α) (out : List β) (i : ℕ) (a : α), mapE g l = .ok out →
      l.get? i = some a → ∃ b, g a = .ok b ∧ out.get? i = some b := by
  intro l
  induction l with
  | nil => intro out i a _ ha; cases ha
  | cons a0 l ih =>
    intro out i a h ha
    simp only [mapE, Bind.bind, Except.bind] at h
    cases hg : g a0 with
    | error e => rw [hg] at h; cases h
    | ok b =>
      rw [hg] at h
      cases hl : mapE g l with
      | error e => rw [hl] at h; cases h
      | ok bs =>
        rw [hl] at h
        cases h
        cases i with
        | zero =>
          cases ha
          exact ⟨b, hg, rfl⟩
        | succ i =>
          simp only [List.get?_cons_succ] at ha ⊢
          exact ih bs i a hl ha

theorem flatten_get_uniform (k : ℕ) :
    ∀ (blocks : List (List ℚ)) (i j : ℕ),
      (∀ b ∈ blocks, b.length = k) → j < k →
      blocks.flatten.get? (i * k + j) =
        (blocks.get? i).bind (fun b => b.get? j) := by
  intro blocks
  induction blocks with
  | nil => intro i j _ _; simp
  | cons b bs ih =>
    intro i j hlen hj
    have hb : b.length = k := hlen b (by simp)
    cases i with
    | zero =>
      simp only [Nat.zero_mul, Nat.zero_add, List.flatten_cons]
      rw [List.get?_append (by omega)]
      simp
    | succ i =>
      have harith : (i + 1) * k + j = b.length + (i * k + j) := by
        rw [hb]; ring_nf
      simp only [List.flatten_cons]
      rw [harith, List.get?_append_right (by omega)]
      simp only [Nat.add_sub_cancel_left, List.get?_cons_succ]
      exact ih i j (fun b2 hb2 => hlen b2 (by simp [hb2])) hj

theorem flatten_length_uniform (k : ℕ) :
    ∀ (blocks : List (List ℚ)), (∀ b ∈ blocks, b.length = k) →
      blocks.flatten.length = blocks.length * k := by
  intro blocks
  induction blocks with
  | nil => intro _; simp
  | cons b bs ih =>
    intro hlen
    simp only [List.flatten_cons, List.length_append, List.length_cons]
    rw [hlen b (by simp), ih (fun b2 hb2 => hlen b2 (by simp [hb2]))]
    ring

theorem vecShiftLookup_ok (y : List ℚ) (k i m : ℕ) (hy : y.length = m * k)
    (hi : i < m) :
    mapE (fun j =>
      match y.get? (i * k + j + 1) with
      | some v => Except.ok v
      | none => Except.error "index out of bounds") (List.range (k - 1)) =
    .ok ((List.range (k - 1)).map (fun j => y.getD (i * k + j + 1) 0)) := by
  apply mapE_eq_ok_map
  intro j hj
  rw [List.mem_range] at hj
  have hlt : i * k + j + 1 < y.length := by
    rw [hy]
    have h1 : i * k + k ≤ m * k := by
      have : i + 1 ≤ m := hi
      calc i * k + k = (i + 1) * k := by ring
        _ ≤ m * k := Nat.mul_le_mul_right k this
    omega
  have hv : y.get? (i * k + j + 1) = some (y.getD (i * k + j + 1) 0) := by
    rw [List.getD_eq_getElem?_getD, List.get?_eq_getElem?,
      List.getElem?_eq_getElem hlt]
    rfl
  rw [hv]

theorem vecBlock_ok_char (t : PyExpr) (lns : Ns) (k : ℕ) (y : List ℚ)
    (i m : ℕ) (hy : y.length = m * k) (hi : i < m) (hk : 1 ≤ k)
    (b : List ℚ) (hb : vecBlock t lns k y i = .ok b) :
    b.length = k ∧
    (∀ j, j < k - 1 → b.get? j = y.get? (i * k + j + 1)) ∧
    ∃ v q, evalExpr t lns = .ok v ∧ toFloat v = .ok q ∧
      b.get? (k - 1) = some q := by
  unfold vecBlock at hb
  rw [vecShiftLookup_ok y k i m hy hi] at hb
  simp only [Bind.bind, Except.bind] at hb
  cases hev : evalExpr t lns with
  | error e => simp only [hev] at hb; cases hb
  | ok v =>
    simp only [hev] at hb
    cases hfl : toFloat v with
    | error e => simp only [hfl] at hb; cases hb
    | ok q =>
      simp only [hfl] at hb
      rw [if_neg (by omega)] at hb
      cases hb
      refine ⟨by simp; omega, ?_, v, q, rfl, hfl, ?_⟩
      · intro j hj
        rw [List.get?_append (by simp; omega)]
        have hlt : i * k + j + 1 < y.length := by
          rw [hy]
          have h1 : (i + 1) * k ≤ m * k := Nat.mul_le_mul_right k hi
          have : i * k + k = (i + 1) * k := by ring
          omega
        rw [List.get?_eq_getElem?, List.getElem?_map, List.getElem?_range
          (by omega)]
        simp [Option.map_some, List.getD_eq_getElem?_getD,
          List.get?_eq_getElem?, List.getElem?_eq_getElem hlt]
      · rw [List.get?_append_right (by simp)]
        simp

/-- C7: for `m ≥ 1` components each of order `k ≥ 1`, the callable built
by `parse_vector_expression` consumes a state of size `m·k` laid out
component-block by component-block and produces the derivative
block-by-block with the scalar shift-and-append rule: inside block `i`,
entry `j < k-1` is `y[i·k+j+1]` and entry `k-1` is the evaluated
highest-derivative expression of component `i` (evaluated against the
full state, so it may reference any component). -/
theorem parse_vector_expression_block_layout
    (sm : Ns) (parsedList : List (Option PyExpr)) (k : ℕ)
    (p : String → Option ℚ) (f : ℚ → List ℚ → Except String (List ℚ))
    (hk : 1 ≤ k)
    (hok : parse_vector_expression sm parsedList k p = .ok f)
    (x : ℚ) (y res : List ℚ) (hy : y.length = parsedList.length * k)
    (hres : f x y = .ok res) :
    res.length = parsedList.length * k ∧
    ∀ i, i < parsedList.length →
      ((∀ j, j < k - 1 → res.get? (i * k + j) = y.get? (i * k + j + 1)) ∧
       ∃ t v q, parsedList.get? i = some (some t) ∧
         evalExpr t (bindVar (bindVar (nsMerge sm (numNs p)) "x" (.num x))
           "y" (.arr (y.map .num))) = .ok v ∧
         toFloat v = .ok q ∧
         res.get? (i * k + (k - 1)) = some q) := by
  simp only [parse_vector_expression] at hok
  by_cases hemp : parsedList.isEmpty
  · rw [if_pos hemp] at hok; cases hok
  · rw [if_neg hemp] at hok
    cases hE : mapE (fun p =>
        match p with
        | none => Except.error "Syntax error in expression"
        | some tree =>
          match validateAstTree tree with
          | .error e => Except.error e
          | .ok () => Except.ok tree) parsedList with
    | error e => rw [hE] at hok; cases hok
    | ok trees =>
      rw [hE] at hok
      simp only at hok
      cases hT : mapE (fun pr =>
          match evalExpr pr.2 (bindVar (bindVar (nsMerge sm (numNs p))
              "x" (.num 0)) "y"
              (.arr (List.replicate (trees.length * k) (.num 0)))) with
          | .error e => Except.error
              ("Expression " ++ toString pr.1 ++ " evaluation failed: " ++ e)
          | .ok _ => Except.ok ()) trees.enum with
      | error e => rw [hT] at hok; cases hok
      | ok u =>
        rw [hT] at hok
        simp only at hok
        cases hok
        have hmt : trees.length = parsedList.length :=
          mapE_ok_length _ parsedList trees hE
        unfold vecRhs at hres
        simp only [Bind.bind, Except.bind] at hres
        cases hB : mapE (fun pr => vecBlock pr.2
            (bindVar (bindVar (nsMerge sm (numNs p)) "x" (.num x)) "y"
              (.arr (y.map .num))) k y pr.1) trees.enum with
        | error e => rw [hB] at hres; cases hres
        | ok blocks =>
          rw [hB] at hres
          cases hres
          have hbl : blocks.length = trees.length := by
            have := mapE_ok_length _ trees.enum blocks hB
            simpa using this
          have hblockchar : ∀ i, i < trees.length →
              ∃ t b, trees.get? i = some t ∧ blocks.get? i = some b ∧
                vecBlock t (bindVar (bindVar (nsMerge sm (numNs p)) "x"
                  (.num x)) "y" (.arr (y.map .num))) k y i = .ok b := by
            intro i hi
            obtain ⟨t, ht⟩ : ∃ t, trees.get? i = some t :=
              ⟨trees.get ⟨i, by omega⟩, List.get?_eq_get (by omega)⟩
            have henum : trees.enum.get? i = some (i, t) := by
              rw [List.enum_get?, ht]
              rfl
            obtain ⟨b, hgb, hob⟩ := mapE_ok_get _ trees.enum blocks i (i, t)
              hB henum
            exact ⟨t, b, ht, hob, hgb⟩
          have hlen : ∀ b ∈ blocks, b.length = k := by
            intro b hb
            obtain ⟨idx, hidx⟩ := List.mem_iff_get.mp hb
            obtain ⟨t, b2, ht, hob, hvb⟩ := hblockchar idx.1 (by
              have := idx.2; omega)
            have hb2 : b2 = b := by
              rw [List.get?_eq_get idx.2, hidx] at hob
              exact (Option.some.inj hob).symm
            rw [← hb2]
            exact (vecBlock_ok_char t _ k y idx.1 parsedList.length
              (by omega) (by have := idx.2; omega) hk b2 hvb).1
          constructor
          · rw [flatten_length_uniform k blocks hlen, hbl, hmt]
          · intro i hi
            obtain ⟨t, b, ht, hob, hvb⟩ := hblockchar i (by omega)
            obtain ⟨hblen, hshift, v, q, hev, hfl, hlast⟩ :=
              vecBlock_ok_char t _ k y i parsedList.length (by omega)
                (by omega) hk b hvb
            constructor
            · intro j hj
              rw [flatten_get_uniform k blocks i j hlen (by omega), hob]
              simp only [Option.some_bind]
              exact hshift j hj
            · obtain ⟨tr, htr⟩ : ∃ tr, parsedList.get? i = some tr := by
                refine ⟨parsedList.get ⟨i, by omega⟩, List.get?_eq_get _⟩
              obtain ⟨t2, hg2, hot2⟩ := mapE_ok_get _ parsedList trees i tr
                hE htr
              have ht2 : t2 = t := by
                rw [hot2] at ht
                exact Option.some.inj ht
              rw [ht2] at hg2
              cases tr with
              | none => cases hg2
              | some tr0 =>
                have htr0 : tr0 = t := by
                  cases hvt : validateAstTree tr0 with
                  | error e => simp only [hvt] at hg2; cases hg2
                  | ok u2 =>
                    cases u2
                    simp only [hvt] at hg2
                    cases hg2
                    rfl
                rw [htr0] at htr
                refine ⟨t, v, q, htr, hev, hfl, ?_⟩
                rw [flatten_get_uniform k blocks i (k - 1) hlen (by omega),
                  hob]
                simp only [Option.some_bind]
                exact hlast

/-- Witness for C7: two components of order 2 with expressions `1` and
`2` on the state `[10, 20, 30, 40]` produce `[20, 1, 40, 2]` — each
block shifts its own entries and appends its evaluated expression. -/
theorem parse_vector_expression_block_layout_witness :
    ∃ f res,
      parse_vector_expression (fun _ => none)
          [some (.constant 1), some (.constant 2)] 2 (fun _ => none) =
        .ok f ∧
      f 0 [10, 20, 30, 40] = .ok res ∧
      res.length = 4 ∧ res.get? 0 = some 20 ∧ res.get? 1 = some 1 ∧
      res.get? 2 = some 40 ∧ res.get? 3 = some 2 := by
  have hparse : parse_vector_expression (fun _ => none)
      [some (.constant 1), some (.constant 2)] 2 (fun _ => none) =
    .ok (vecRhs [.constant 1, .constant 2]
      (nsMerge (fun _ => none) (numNs (fun _ => none))) 2) := by
    simp [parse_vector_expression, mapE, validateAstTree, walkKinds,
      allowedKind, evalExpr, Bind.bind, Except.bind, List.enum]
  have hres : vecRhs [.constant 1, .constant 2]
      (nsMerge (fun _ => none) (numNs (fun _ => none))) 2 0
      [10, 20, 30, 40] = .ok [20, 1, 40, 2] := by
    simp [vecRhs, vecBlock, mapE, evalExpr, toFloat, Bind.bind, Except.bind,
      List.enum]
  refine ⟨_, [20, 1, 40, 2], hparse, hres, ?_, by decide, by decide,
    by decide, by decide⟩
  exact (parse_vector_expression_block_layout (fun _ => none)
    [some (.constant 1), some (.constant 2)] 2 (fun _ => none) _
    (by norm_num) hparse 0 [10, 20, 30, 40] [20, 1, 40, 2] (by norm_num)
    hres).1

/-- C3: when every multipoint condition is anchored at `x_min` (and the
component indices enumerate `0..order-1`, which is how the pipeline
builds them and what placing each target at its component index
presupposes), `solve_multipoint` reduces to `solve_ode` over the same
domain with `y0[k_i] = a_i`, for every root finder and interpolator (no
root-finding is involved), returning that exact solution. -/
theorem solve_multipoint_anchored_reduces (env : SolverEnv)
    (integ : Integrator) (f : ℚ → List ℚ → Except String (List ℚ))
    (conditions : List (ℕ × ℚ × ℚ)) (order : ℕ) (x_min x_max : ℚ)
    (method : Option String) (t_eval : Option (List ℚ))
    (ms rt atl : Option ℚ)
    (hanch : ∀ c ∈ conditions, c.2.1 = x_min)
    (hperm : (conditions.map (fun c => c.1)).Perm (List.range order)) :
    ∃ y0 : List ℚ, y0.length = order ∧
      (∀ c ∈ conditions, y0.get? c.1 = some c.2.2) ∧
      ∀ (fs2 : RootFinder) (interp2 : ℚ → List ℚ → List ℚ → ℚ),
        solve_multipoint env integ fs2 interp2 f conditions order x_min
          x_max method t_eval ms rt atl =
        solve_ode env integ f (x_min, x_max) y0 method t_eval ms rt atl := by
  have hperm2 : (conditions.mergeSort
      (fun c c2 => decide (c.1 ≤ c2.1))).Perm conditions :=
    List.mergeSort_perm conditions _
  have hsorted : List.Pairwise
      (fun a b => (fun c c2 : ℕ × ℚ × ℚ => decide (c.1 ≤ c2.1)) a b = true)
      (conditions.mergeSort (fun c c2 => decide (c.1 ≤ c2.1))) :=
    List.sorted_mergeSort
      (by intro a b c hab hbc; simp only [decide_eq_true_eq] at *; omega)
      (by intro a b; simp only [Bool.or_eq_true, decide_eq_true_eq]; omega)
      conditions
  have hkeys_sorted : List.Pairwise (· ≤ ·)
      ((conditions.mergeSort (fun c c2 => decide (c.1 ≤ c2.1))).map
        (fun c => c.1)) := by
    rw [List.pairwise_map]
    exact hsorted.imp (fun h => by simpa using h)
  have hkeys_perm : ((conditions.mergeSort
      (fun c c2 => decide (c.1 ≤ c2.1))).map (fun c => c.1)).Perm
        (List.range order) := (hperm2.map _).trans hperm
  have hkeys : (conditions.mergeSort
      (fun c c2 => decide (c.1 ≤ c2.1))).map (fun c => c.1) =
        List.range order :=
    List.eq_of_perm_of_sorted hkeys_perm hkeys_sorted
      (List.pairwise_le_range order)
  have hlen : (conditions.mergeSort
      (fun c c2 => decide (c.1 ≤ c2.1))).length = order := by
    have := congrArg List.length hkeys
    simpa using this
  refine ⟨(conditions.mergeSort (fun c c2 => decide (c.1 ≤ c2.1))).map
    (fun c => c.2.2), by simpa using hlen, ?_, ?_⟩
  · intro c hc
    have hcs : c ∈ conditions.mergeSort (fun c c2 => decide (c.1 ≤ c2.1)) :=
      hperm2.mem_iff.mpr hc
    obtain ⟨n, hn⟩ := List.mem_iff_get.mp hcs
    have hkey : c.1 = n.1 := by
      have h1 := congrArg (fun l => l.get? n.1) hkeys
      simp only [List.get?_eq_getElem?, List.getElem?_map] at h1
      rw [List.getElem?_eq_getElem n.2] at h1
      rw [List.getElem?_range (by have := n.2; omega : n.1 < order)] at h1
      simp only [Option.map_some'] at h1
      have h3 := Option.some.inj h1
      rw [← hn]
      simpa [List.get_eq_getElem] using h3
    rw [hkey, List.get?_eq_getElem?, List.getElem?_map,
      List.getElem?_eq_getElem n.2]
    rw [← hn]
    simp [List.get_eq_getElem]
  · intro fs2 interp2
    have hall : conditions.all
        (fun c => |c.2.1 - x_min| < 1 / 1000000000000) = true := by
      rw [List.all_eq_true]
      intro c hc
      rw [hanch c hc]
      norm_num
    unfold solve_multipoint
    rw [if_pos hall]
    rfl

/-- Witness for C3: two conditions anchored at `x_min = 0` with component
indices `1` and `0` reduce to a direct `solve_ode` call with
`y0 = [1, 5]` (each target at its component index), for an arbitrary
root finder. -/
theorem solve_multipoint_anchored_reduces_witness :
    ∃ y0 : List ℚ, y0.length = 2 ∧
      (∀ c ∈ ([(1, 0, 5), (0, 0, 1)] : List (ℕ × ℚ × ℚ)),
        y0.get? c.1 = some c.2.2) ∧
      ∀ (fs2 : RootFinder) (interp2 : ℚ → List ℚ → List ℚ → ℚ),
        solve_multipoint ⟨"RK45", 0, 1, 1, 10⟩
          (fun _ c => ⟨c.tEval, [c.y0], true, "done", 3⟩) fs2 interp2
          (fun _ y => .ok y) [(1, 0, 5), (0, 0, 1)] 2 0 1 none none none
          none none =
        solve_ode ⟨"RK45", 0, 1, 1, 10⟩
          (fun _ c => ⟨c.tEval, [c.y0], true, "done", 3⟩)
          (fun _ y => .ok y) (0, 1) y0 none none none none none :=
  solve_multipoint_anchored_reduces ⟨"RK45", 0, 1, 1, 10⟩
    (fun _ c => ⟨c.tEval, [c.y0], true, "done", 3⟩) (fun _ y => .ok y)
    [(1, 0, 5), (0, 0, 1)] 2 0 1 none none none none none
    (by intro c hc; fin_cases hc <;> rfl) (by decide)

theorem pivotSplit_perm :
    ∀ (l : List (List ℚ × ℚ)) p rest, pivotSplit l = some (p, rest) →
      l.Perm (p :: rest) := by
  intro l
  induction l with
  | nil => intro p rest h; simp [pivotSplit] at h
  | cons r rs ih =>
    intro p rest h
    rw [pivotSplit] at h
    by_cases hr : r.1.headI ≠ 0
    · rw [if_pos hr] at h
      cases h
      exact List.Perm.refl _
    · rw [if_neg hr] at h
      cases hps : pivotSplit rs with
      | none => rw [hps] at h; cases h
      | some pr =>
        obtain ⟨p2, rest2⟩ := pr
        rw [hps] at h
        simp only [Option.some.injEq, Prod.mk.injEq] at h
        obtain ⟨hp2, hrest⟩ := h
        have hperm := ih p2 rest2 hps
        rw [← hp2, ← hrest]
        exact (hperm.cons r).trans (List.Perm.swap p2 r rest2)

theorem pivotSplit_headI :
    ∀ (l : List (List ℚ × ℚ)) p rest, pivotSplit l = some (p, rest) →
      p.1.headI ≠ 0 := by
  intro l
  induction l with
  | nil => intro p rest h; simp [pivotSplit] at h
  | cons r rs ih =>
    intro p rest h
    rw [pivotSplit] at h
    by_cases hr : r.1.headI ≠ 0
    · rw [if_pos hr] at h
      cases h
      exact hr
    · rw [if_neg hr] at h
      cases hps : pivotSplit rs with
      | none => rw [hps] at h; cases h
      | some pr =>
        obtain ⟨p2, rest2⟩ := pr
        rw [hps] at h
        simp only [Option.some.injEq, Prod.mk.injEq] at h
        rw [← h.1]
        exact ih p2 rest2 hps

theorem dotQ_cons (a b : ℚ) (l m : List ℚ) :
    dotQ (a :: l) (b :: m) = a * b + dotQ l m := by
  simp [dotQ]

theorem dotQ_zero_right (u : List ℚ) :
    ∀ xs : List ℚ, (∀ v ∈ xs, v = 0) → dotQ u xs = 0 := by
  induction u with
  | nil => intro xs _; simp [dotQ]
  | cons a u ih =>
    intro xs hxs
    cases xs with
    | nil => simp [dotQ]
    | cons x xs =>
      rw [dotQ_cons, hxs x (by simp), ih xs (fun v hv => hxs v (by simp [hv]))]
      ring

theorem dotQ_zipWith_sub (q : ℚ) :
    ∀ (cs as2 xs : List ℚ), cs.length = as2.length →
      dotQ (List.zipWith (fun c a => c - q * a) cs as2) xs =
        dotQ cs xs - q * dotQ as2 xs := by
  intro cs
  induction cs with
  | nil =>
    intro as2 xs hlen
    cases as2 with
    | nil => simp [dotQ]
    | cons a as2 => cases hlen
  | cons c cs ih =>
    intro as2 xs hlen
    cases as2 with
    | nil => cases hlen
    | cons a as2 =>
      cases xs with
      | nil => simp [dotQ]
      | cons x xs =>
        simp only [List.zipWith_cons_cons, dotQ_cons]
        rw [ih as2 xs (by simpa using hlen)]
        ring

theorem gaussElim_length :
    ∀ fuel (rows : List (List ℚ × ℚ)) xs,
      gaussElim fuel rows = some xs → xs.length = rows.length := by
  intro fuel
  induction fuel with
  | zero =>
    intro rows xs h
    cases rows with
    | nil => cases h; rfl
    | cons r rs => cases h
  | succ fuel ih =>
    intro rows xs h
    cases rows with
    | nil => cases h; rfl
    | cons r rs =>
      rw [gaussElim] at h
      cases hps : pivotSplit (r :: rs) with
      | none => rw [hps] at h; cases h
      | some pr =>
        obtain ⟨p, rest⟩ := pr
        rw [hps] at h
        simp only at h
        cases hp : p.1 with
        | nil => rw [hp] at h; cases h
        | cons a0 arest =>
          rw [hp] at h
          simp only at h
          cases hrec : gaussElim fuel (rest.map (fun rr =>
              match rr.1 with
              | [] => ([], rr.2)
              | c0 :: crest =>
                (List.zipWith (fun c a => c - c0 / a0 * a) crest arest,
                 rr.2 - c0 / a0 * p.2))) with
          | none => rw [hrec] at h; cases h
          | some xs2 =>
            rw [hrec] at h
            cases h
            have h1 := ih _ xs2 hrec
            have h2 := pivotSplit_length _ _ _ hps
            simp only [List.length_map] at h1
            simp only [List.length_cons] at h2 ⊢
            omega

/-- Correctness of the elimination model: a returned vector solves every
row of the system. -/
theorem gaussElim_correct :
    ∀ fuel (rows : List (List ℚ × ℚ)) xs,
      (∀ r ∈ rows, r.1.length = rows.length) →
      gaussElim fuel rows = some xs →
      ∀ r ∈ rows, dotQ r.1 xs = r.2 := by
  intro fuel
  induction fuel with
  | zero =>
    intro rows xs _ h
    cases rows with
    | nil => intro r hr; cases hr
    | cons r rs => cases h
  | succ fuel ih =>
    intro rows xs hw hok
    cases rows with
    | nil => intro r hr; cases hr
    | cons r rs =>
      rw [gaussElim] at hok
      cases hps : pivotSplit (r :: rs) with
      | none => rw [hps] at hok; cases hok
      | some pr =>
        obtain ⟨p, rest⟩ := pr
        rw [hps] at hok
        simp only at hok
        have hperm := pivotSplit_perm _ _ _ hps
        have hpmem : p ∈ r :: rs := hperm.mem_iff.mpr (by simp)
        have hplen : p.1.length = rs.length + 1 := by
          have := hw p hpmem
          simpa using this
        have hrestlen : rest.length = rs.length := by
          have := pivotSplit_length _ _ _ hps
          simp only [List.length_cons] at this
          omega
        cases hp : p.1 with
        | nil => rw [hp] at hok; cases hok
        | cons a0 arest =>
          rw [hp] at hok
          simp only at hok
          have ha0 : a0 ≠ 0 := by
            have := pivotSplit_headI _ _ _ hps
            rw [hp] at this
            simpa using this
          have harest : arest.length = rs.length := by
            rw [hp] at hplen
            simpa using hplen
          have hrowfull : ∀ rr ∈ rest, rr.1.length = rs.length + 1 := by
            intro rr hrr
            have : rr ∈ r :: rs :=
              hperm.mem_iff.mpr (List.mem_cons_of_mem p hrr)
            have := hw rr this
            simpa using this
          cases hrec : gaussElim fuel (rest.map (fun rr =>
              match rr.1 with
              | [] => ([], rr.2)
              | c0 :: crest =>
                (List.zipWith (fun c a => c - c0 / a0 * a) crest arest,
                 rr.2 - c0 / a0 * p.2))) with
          | none => rw [hrec] at hok; cases hok
          | some xs2 =>
            rw [hrec] at hok
            cases hok
            have hredw : ∀ rr2 ∈ (rest.map (fun rr =>
                match rr.1 with
                | [] => ([], rr.2)
                | c0 :: crest =>
                  (List.zipWith (fun c a => c - c0 / a0 * a) crest arest,
                   rr.2 - c0 / a0 * p.2))),
                rr2.1.length = (rest.map (fun rr =>
                  match rr.1 with
                  | [] => ([], rr.2)
                  | c0 :: crest =>
                    (List.zipWith (fun c a => c - c0 / a0 * a) crest arest,
                     rr.2 - c0 / a0 * p.2))).length := by
              intro rr2 hm
              obtain ⟨rr, hrrmem, hrr⟩ := List.mem_map.mp hm
              have hfull := hrowfull rr hrrmem
              cases hrc : rr.1 with
              | nil => rw [hrc] at hfull; cases hfull
              | cons c0 crest =>
                rw [hrc] at hrr
                simp only at hrr
                rw [← hrr]
                simp only [List.length_map, List.length_zipWith]
                rw [hrc] at hfull
                simp only [List.length_cons] at hfull
                omega
            have IH := ih _ xs2 hredw hrec
            intro r2 hr2
            rcases List.mem_cons.mp (hperm.mem_iff.mp hr2) with heq | hmem
            · rw [heq, hp, dotQ_cons]
              field_simp
            · have hfull := hrowfull r2 hmem
              cases hrc : r2.1 with
              | nil => rw [hrc] at hfull; cases hfull
              | cons c0 crest =>
                have hcl : crest.length = arest.length := by
                  rw [hrc] at hfull
                  simp only [List.length_cons] at hfull
                  omega
                have hgm : ((List.zipWith (fun c a => c - c0 / a0 * a)
                    crest arest, r2.2 - c0 / a0 * p.2) : List ℚ × ℚ) ∈
                    rest.map (fun rr =>
                      match rr.1 with
                      | [] => ([], rr.2)
                      | c0 :: crest =>
                        (List.zipWith (fun c a => c - c0 / a0 * a) crest
                          arest, rr.2 - c0 / a0 * p.2)) := by
                  rw [List.mem_map]
                  exact ⟨r2, hmem, by rw [hrc]⟩
                have ihrr := IH _ hgm
                simp only at ihrr
                rw [dotQ_zipWith_sub (c0 / a0) crest arest xs2 hcl] at ihrr
                rw [dotQ_cons]
                linear_combination ihrr

/-- The elimination model maps a zero right-hand side to the zero
solution. -/
theorem gaussElim_zero :
    ∀ fuel (rows : List (List ℚ × ℚ)) xs,
      (∀ r ∈ rows, r.2 = 0) →
      gaussElim fuel rows = some xs →
      ∀ v ∈ xs, v = 0 := by
  intro fuel
  induction fuel with
  | zero =>
    intro rows xs _ h
    cases rows with
    | nil => cases h; intro v hv; cases hv
    | cons r rs => cases h
  | succ fuel ih =>
    intro rows xs hb hok
    cases rows with
    | nil => cases hok; intro v hv; cases hv
    | cons r rs =>
      rw [gaussElim] at hok
      cases hps : pivotSplit (r :: rs) with
      | none => rw [hps] at hok; cases hok
      | some pr =>
        obtain ⟨p, rest⟩ := pr
        rw [hps] at hok
        simp only at hok
        have hperm := pivotSplit_perm _ _ _ hps
        have hpb : p.2 = 0 := hb p (hperm.mem_iff.mpr (by simp))
        cases hp : p.1 with
        | nil => rw [hp] at hok; cases hok
        | cons a0 arest =>
          rw [hp] at hok
          simp only at hok
          cases hrec : gaussElim fuel (rest.map (fun rr =>
              match rr.1 with
              | [] => ([], rr.2)
              | c0 :: crest =>
                (List.zipWith (fun c a => c - c0 / a0 * a) crest arest,
                 rr.2 - c0 / a0 * p.2))) with
          | none => rw [hrec] at hok; cases hok
          | some xs2 =>
            rw [hrec] at hok
            cases hok
            have hzb : ∀ rr2 ∈ (rest.map (fun rr =>
                match rr.1 with
                | [] => ([], rr.2)
                | c0 :: crest =>
                  (List.zipWith (fun c a => c - c0 / a0 * a) crest arest,
                   rr.2 - c0 / a0 * p.2))), rr2.2 = 0 := by
              intro rr2 hm
              obtain ⟨rr, hrrmem, hrr⟩ := List.mem_map.mp hm
              have hrrb : rr.2 = 0 :=
                hb rr (hperm.mem_iff.mpr (List.mem_cons_of_mem p hrrmem))
              cases hrc : rr.1 with
              | nil =>
                rw [hrc] at hrr
                rw [← hrr]
                exact hrrb
              | cons c0 crest =>
                rw [hrc] at hrr
                rw [← hrr]
                simp [hrrb, hpb]
            have IH := ih _ xs2 hzb hrec
            intro v hv
            rcases List.mem_cons.mp hv with heq | hmem
            · rw [heq, hpb, dotQ_zero_right arest xs2 IH]
              simp
            · exact IH v hmem

theorem interiorList_length (nx ny : ℕ) :
    (interiorList nx ny).length = (nx - 2) * (ny - 2) := by
  simp [interiorList]

theorem interiorList_mem (nx ny : ℕ) (hx : 3 ≤ nx) (p : ℕ × ℕ) :
    p ∈ interiorList nx ny ↔
      1 ≤ p.1 ∧ p.1 ≤ nx - 2 ∧ 1 ≤ p.2 ∧ p.2 ≤ ny - 2 := by
  unfold interiorList
  rw [List.mem_map]
  constructor
  · rintro ⟨k, hk, hkp⟩
    rw [List.mem_range] at hk
    have hm : 0 < nx - 2 := by omega
    have h1 : k % (nx - 2) < nx - 2 := Nat.mod_lt k hm
    have h2 : k / (nx - 2) < ny - 2 := by
      rw [Nat.div_lt_iff_lt_mul hm]
      calc k < (nx - 2) * (ny - 2) := hk
        _ = (ny - 2) * (nx - 2) := Nat.mul_comm _ _
    rw [← hkp]
    dsimp only
    exact ⟨Nat.le_add_left 1 _, Nat.succ_le_of_lt h1, Nat.le_add_left 1 _,
      Nat.succ_le_of_lt h2⟩
  · rintro ⟨h1, h2, h3, h4⟩
    refine ⟨(p.2 - 1) * (nx - 2) + (p.1 - 1), ?_, ?_⟩
    · rw [List.mem_range]
      have hm : 0 < nx - 2 := by omega
      calc (p.2 - 1) * (nx - 2) + (p.1 - 1)
          < (p.2 - 1) * (nx - 2) + (nx - 2) := by omega
        _ = ((p.2 - 1) + 1) * (nx - 2) := by ring
        _ = p.2 * (nx - 2) := by congr 1; omega
        _ ≤ (ny - 2) * (nx - 2) := Nat.mul_le_mul_right _ h4
        _ = (nx - 2) * (ny - 2) := Nat.mul_comm _ _
    · have hm : 0 < nx - 2 := by omega
      have hmod : ((p.2 - 1) * (nx - 2) + (p.1 - 1)) % (nx - 2) = p.1 - 1 := by
        rw [Nat.add_comm, Nat.add_mul_mod_self_right]
        exact Nat.mod_eq_of_lt (by omega)
      have hdiv : ((p.2 - 1) * (nx - 2) + (p.1 - 1)) / (nx - 2) = p.2 - 1 := by
        rw [Nat.add_comm, Nat.add_mul_div_right _ _ hm,
          Nat.div_eq_of_lt (by omega)]
        omega
      rw [hmod, hdiv]
      have : p.1 - 1 + 1 = p.1 := by omega
      have h6 : p.2 - 1 + 1 = p.2 := by omega
      rw [this, h6]

theorem interiorList_nodup (nx ny : ℕ) : (interiorList nx ny).Nodup := by
  unfold interiorList
  refine List.Nodup.map_on ?_ (List.nodup_range _)
  intro k1 _ k2 _ heq
  simp only [Prod.mk.injEq] at heq
  obtain ⟨hmod, hdiv⟩ := heq
  have hmod2 : k1 % (nx - 2) = k2 % (nx - 2) := by omega
  have hdiv2 : k1 / (nx - 2) = k2 / (nx - 2) := by omega
  have h1 := Nat.div_add_mod k1 (nx - 2)
  have h2 := Nat.div_add_mod k2 (nx - 2)
  rw [hmod2, hdiv2] at h1
  omega

theorem interiorList_get (nx ny i j : ℕ) (_hx : 3 ≤ nx)
    (h1 : 1 ≤ i) (h2 : i ≤ nx - 2) (h3 : 1 ≤ j) (h4 : j ≤ ny - 2) :
    (interiorList nx ny).get? (kIdx nx i j) = some (i, j) := by
  unfold interiorList kIdx
  have hm : 0 < nx - 2 := by omega
  have hk : (j - 1) * (nx - 2) + (i - 1) < (nx - 2) * (ny - 2) := by
    calc (j - 1) * (nx - 2) + (i - 1)
        < (j - 1) * (nx - 2) + (nx - 2) := by omega
      _ = ((j - 1) + 1) * (nx - 2) := by ring
      _ = j * (nx - 2) := by congr 1; omega
      _ ≤ (ny - 2) * (nx - 2) := Nat.mul_le_mul_right _ h4
      _ = (nx - 2) * (ny - 2) := Nat.mul_comm _ _
  rw [List.get?_eq_getElem?, List.getElem?_map, List.getElem?_range hk]
  simp only [Option.map_some']
  have hmod : ((j - 1) * (nx - 2) + (i - 1)) % (nx - 2) = i - 1 := by
    rw [Nat.add_comm, Nat.add_mul_mod_self_right]
    exact Nat.mod_eq_of_lt (by omega)
  have hdiv : ((j - 1) * (nx - 2) + (i - 1)) / (nx - 2) = j - 1 := by
    rw [Nat.add_comm, Nat.add_mul_div_right _ _ hm,
      Nat.div_eq_of_lt (by omega)]
    omega
  rw [hmod, hdiv]
  have h5 : i - 1 + 1 = i := by omega
  have h6 : j - 1 + 1 = j := by omega
  rw [h5, h6]

theorem interiorList_get_kIdx (nx ny : ℕ) (hx : 3 ≤ nx) :
    ∀ k (h : k < (interiorList nx ny).length),
      kIdx nx ((interiorList nx ny).get ⟨k, h⟩).1
        ((interiorList nx ny).get ⟨k, h⟩).2 = k := by
  intro k h
  have hm : 0 < nx - 2 := by
    rw [interiorList_length] at h
    by_contra hc
    omega
  unfold interiorList at h ⊢
  rw [List.get_eq_getElem, List.getElem_map, List.getElem_range]
  unfold kIdx
  simp only [Nat.add_sub_cancel]
  have h1 := Nat.div_add_mod k (nx - 2)
  have h2 : (k / (nx - 2)) * (nx - 2) = (nx - 2) * (k / (nx - 2)) :=
    Nat.mul_comm _ _
  omega

theorem dotQ_map_eq_sum (g : α → ℚ) :
    ∀ (l : List α) (xs : List ℚ),
      dotQ (l.map g) xs = (List.zipWith (fun a x => g a * x) l xs).sum := by
  intro l
  induction l with
  | nil => intro xs; simp [dotQ]
  | cons a l ih =>
    intro xs
    cases xs with
    | nil => simp [dotQ]
    | cons x xs =>
      simp only [List.map_cons, List.zipWith_cons_cons, dotQ_cons,
        List.sum_cons]
      rw [ih xs]

theorem zipWith_mul_eq_map (g u : α → ℚ) :
    ∀ (l : List α) (xs : List ℚ), xs.length = l.length →
      (∀ k (h : k < l.length), xs.getD k 0 = u (l.get ⟨k, h⟩)) →
      List.zipWith (fun a x => g a * x) l xs = l.map (fun a => g a * u a) := by
  intro l
  induction l with
  | nil => intro xs _ _; simp
  | cons a l ih =>
    intro xs hlen hpt
    cases xs with
    | nil => cases hlen
    | cons x xs =>
      simp only [List.zipWith_cons_cons, List.map_cons]
      congr 1
      · have := hpt 0 (by simp)
        simp at this
        rw [this]
      · exact ih xs (by simpa using hlen)
          (fun k h => by
            have := hpt (k + 1) (by simpa using Nat.succ_lt_succ h)
            simpa using this)

theorem sum_map_add_q (f g : α → ℚ) (l : List α) :
    (l.map (fun a => f a + g a)).sum = (l.map f).sum + (l.map g).sum := by
  induction l with
  | nil => simp
  | cons a l ih =>
    simp only [List.map_cons, List.sum_cons, ih]
    ring

theorem sum_ite_point_notmem (t : ℕ × ℕ) (c : ℚ) (u : ℕ × ℕ → ℚ) :
    ∀ l : List (ℕ × ℕ), t ∉ l →
      (l.map (fun p => (if p = t then c else 0) * u p)).sum = 0 := by
  intro l
  induction l with
  | nil => intro _; simp
  | cons a l ih =>
    intro hnot
    simp only [List.map_cons, List.sum_cons]
    rw [if_neg (by intro h; exact hnot (by simp [h])),
      ih (fun h => hnot (by simp [h]))]
    ring

theorem sum_ite_point (t : ℕ × ℕ) (c : ℚ) (u : ℕ × ℕ → ℚ) :
    ∀ l : List (ℕ × ℕ), l.Nodup →
      (l.map (fun p => (if p = t then c else 0) * u p)).sum =
        if t ∈ l then c * u t else 0 := by
  intro l
  induction l with
  | nil => intro _; simp
  | cons a l ih =>
    intro hnd
    simp only [List.map_cons, List.sum_cons]
    by_cases ha : a = t
    · rw [if_pos ha]
      have hnot : t ∉ l := by
        rw [← ha]
        exact (List.nodup_cons.mp hnd).1
      rw [sum_ite_point_notmem t c u l hnot, ha,
        if_pos (List.mem_cons_self t l)]
      ring
    · rw [if_neg ha, ih (List.nodup_cons.mp hnd).2]
      by_cases hm : t ∈ l
      · rw [if_pos hm, if_pos (List.mem_cons_of_mem a hm)]
        ring
      · rw [if_neg hm, if_neg (by
          intro h
          rcases List.mem_cons.mp h with h2 | h2
          · exact ha h2.symm
          · exact hm h2)]
        ring

theorem sum_dir (t : ℕ × ℕ) (c : ℚ) (u : ℕ × ℕ → ℚ) (cond : Prop)
    [Decidable cond] (l : List (ℕ × ℕ)) (hl : l.Nodup) :
    (l.map (fun p => (if cond ∧ p = t then c else 0) * u p)).sum =
      if cond ∧ t ∈ l then c * u t else 0 := by
  by_cases hc : cond
  · simp only [hc, true_and]
    exact sum_ite_point t c u l hl
  · simp [hc]

theorem sum_map_mul_split5 (T1 T2 T3 T4 T5 u : α → ℚ) (l : List α) :
    (l.map (fun p => (T1 p + (T2 p + (T3 p + (T4 p + T5 p)))) * u p)).sum =
      (l.map (fun p => T1 p * u p)).sum +
      ((l.map (fun p => T2 p * u p)).sum +
      ((l.map (fun p => T3 p * u p)).sum +
      ((l.map (fun p => T4 p * u p)).sum +
      (l.map (fun p => T5 p * u p)).sum))) := by
  induction l with
  | nil => simp
  | cons a l ih =>
    simp only [List.map_cons, List.sum_cons, ih]
    ring

/-- The dot product of an assembled interior row with the flat unknown
vector, resolved into the five stencil contributions. -/
theorem stencil_row_eq (nx ny : ℕ) (hx3 : 3 ≤ nx) (_hy3 : 3 ≤ ny)
    (cx cy : ℚ) (i j : ℕ) (h1 : 1 ≤ i) (h2 : i ≤ nx - 2)
    (h3 : 1 ≤ j) (h4 : j ≤ ny - 2) (uflat : List ℚ)
    (hlen : uflat.length = (interiorList nx ny).length) :
    dotQ ((interiorList nx ny).map
      (fun p2 => stencilCoef nx ny cx cy i j p2.1 p2.2)) uflat =
    2 * (cx + cy) * uflat.getD (kIdx nx i j) 0
    + ((if 1 < i then -cx * uflat.getD (kIdx nx (i - 1) j) 0 else 0)
    + ((if i < nx - 2 then -cx * uflat.getD (kIdx nx (i + 1) j) 0 else 0)
    + ((if 1 < j then -cy * uflat.getD (kIdx nx i (j - 1)) 0 else 0)
    + (if j < ny - 2 then -cy * uflat.getD (kIdx nx i (j + 1)) 0 else 0)))) := by
  have hcoef : ∀ a b : ℕ, stencilCoef nx ny cx cy i j a b =
      (fun p : ℕ × ℕ => if True ∧ p = (i, j) then 2 * (cx + cy) else 0) (a, b)
      + ((fun p : ℕ × ℕ => if 1 < i ∧ p = (i - 1, j) then -cx else 0) (a, b)
      + ((fun p : ℕ × ℕ => if i < nx - 2 ∧ p = (i + 1, j) then -cx else 0) (a, b)
      + ((fun p : ℕ × ℕ => if 1 < j ∧ p = (i, j - 1) then -cy else 0) (a, b)
      + (fun p : ℕ × ℕ => if j < ny - 2 ∧ p = (i, j + 1) then -cy else 0) (a, b)))) := by
    intro a b
    unfold stencilCoef
    simp only [Prod.mk.injEq, true_and]
    ring
  rw [dotQ_map_eq_sum]
  rw [zipWith_mul_eq_map _ (fun p : ℕ × ℕ => uflat.getD (kIdx nx p.1 p.2) 0)
    _ uflat (by rw [hlen]) (fun k h => by
      dsimp only
      rw [interiorList_get_kIdx nx ny hx3 k h])]
  simp only [hcoef]
  rw [sum_map_mul_split5]
  have hnd := interiorList_nodup nx ny
  rw [sum_dir (i, j) (2 * (cx + cy)) _ True _ hnd,
    sum_dir (i - 1, j) (-cx) _ (1 < i) _ hnd,
    sum_dir (i + 1, j) (-cx) _ (i < nx - 2) _ hnd,
    sum_dir (i, j - 1) (-cy) _ (1 < j) _ hnd,
    sum_dir (i, j + 1) (-cy) _ (j < ny - 2) _ hnd]
  have hmem0 : (i, j) ∈ interiorList nx ny :=
    (interiorList_mem nx ny hx3 _).mpr ⟨h1, h2, h3, h4⟩
  rw [if_pos ⟨trivial, hmem0⟩]
  congr 1
  congr 1
  · by_cases hg : 1 < i
    · rw [if_pos ⟨hg, (interiorList_mem nx ny hx3 _).mpr
        ⟨by omega, by omega, h3, h4⟩⟩, if_pos hg]
    · rw [if_neg (by tauto), if_neg hg]
  congr 1
  · by_cases hg : i < nx - 2
    · rw [if_pos ⟨hg, (interiorList_mem nx ny hx3 _).mpr
        ⟨by omega, by omega, h3, h4⟩⟩, if_pos hg]
    · rw [if_neg (by tauto), if_neg hg]
  congr 1
  · by_cases hg : 1 < j
    · rw [if_pos ⟨hg, (interiorList_mem nx ny hx3 _).mpr
        ⟨h1, h2, by omega, by omega⟩⟩, if_pos hg]
    · rw [if_neg (by tauto), if_neg hg]
  · by_cases hg : j < ny - 2
    · rw [if_pos ⟨hg, (interiorList_mem nx ny hx3 _).mpr
        ⟨h1, h2, by omega, by omega⟩⟩, if_pos hg]
    · rw [if_neg (by tauto), if_neg hg]

theorem getD_map_range (f : ℕ → β) (n k : ℕ) (hk : k < n) (d : β) :
    ((List.range n).map f).getD k d = f k := by
  rw [List.getD_eq_getElem?_getD, List.getElem?_map, List.getElem?_range hk]
  rfl

theorem linspace_getD (a b : ℚ) (n : ℕ) (hn : 2 ≤ n) (i : ℕ) (hi : i < n) :
    (linspace a b n).getD i 0 = a + i * (b - a) / ((n : ℚ) - 1) := by
  unfold linspace
  rw [if_neg (by omega)]
  exact getD_map_range _ n i hi 0

theorem getD_zero_of_all_zero (xs : List ℚ) (h : ∀ v ∈ xs, v = 0) (k : ℕ) :
    xs.getD k 0 = 0 := by
  rw [List.getD_eq_getElem?_getD]
  cases hx : xs[k]? with
  | none => rfl
  | some v =>
    have : v ∈ xs := List.getElem?_mem hx
    simp [h v this]

theorem zipWith_pair_mem (g : α → List ℚ) :
    ∀ (l1 : List α) (l2 : List ℚ) (r : List ℚ × ℚ),
      r ∈ List.zipWith (fun a b => (g a, b)) l1 l2 →
      (∃ a ∈ l1, r.1 = g a) ∧ r.2 ∈ l2 := by
  intro l1
  induction l1 with
  | nil => intro l2 r h; simp at h
  | cons a l1 ih =>
    intro l2 r h
    cases l2 with
    | nil => simp at h
    | cons b l2 =>
      simp only [List.zipWith_cons_cons] at h
      rcases List.mem_cons.mp h with heq | hmem
      · rw [heq]
        exact ⟨⟨a, by simp, rfl⟩, by simp⟩
      · obtain ⟨⟨a2, ha2, hr1⟩, hr2⟩ := ih l2 r hmem
        exact ⟨⟨a2, by simp [ha2], hr1⟩, by simp [hr2]⟩

theorem zipWith_pair_get (g : α → List ℚ) :
    ∀ (l1 : List α) (l2 : List ℚ) (k : ℕ) (a : α) (b : ℚ),
      l1.get? k = some a → l2.get? k = some b →
      (List.zipWith (fun a b => (g a, b)) l1 l2).get? k = some (g a, b) := by
  intro l1
  induction l1 with
  | nil => intro l2 k a b h1 _; cases h1
  | cons a0 l1 ih =>
    intro l2 k a b h1 h2
    cases l2 with
    | nil => cases h2
    | cons b0 l2 =>
      cases k with
      | zero =>
        cases h1; cases h2
        rfl
      | succ k =>
        simp only [List.get?_cons_succ] at h1 h2 ⊢
        simp only [List.zipWith_cons_cons, List.get?_cons_succ]
        exact ih l2 k a b h1 h2

/-- C4: for every grid with nx, ny at least 3, a field returned by
`solve_pde_2d` (hence also by `solve_pde_2d_linear_poisson`, which calls
it with `bc_values = none`) has its boundary rows and columns equal to
the supplied boundary values (zero Dirichlet by default); at every
interior node `(i, j)` the source callable was evaluated successfully at
`(x_i, y_j)` and the field satisfies the 5-point stencil equation
`(2/hx^2 + 2/hy^2) u[j,i] - (1/hx^2)(u[j,i-1] + u[j,i+1])
- (1/hy^2)(u[j-1,i] + u[j+1,i]) = f(x_i, y_j)` with
`hx = (x_max - x_min)/(nx - 1)` and `hy` likewise (boundary neighbours
enter through the right-hand side, by `stencilRhs`); and with zero
source and zero Dirichlet boundary the whole returned field is zero. -/
theorem solve_pde_2d_stencil (rf : ℚ → ℚ → Except String ℚ)
    (x_min x_max y_min y_max : ℚ) (nx ny : ℕ) (bc : Option (ℕ → ℕ → ℚ))
    (sol : PDESolution) (hx3 : 3 ≤ nx) (hy3 : 3 ≤ ny)
    (hok : solve_pde_2d rf x_min x_max y_min y_max nx ny bc = .ok sol) :
    (∀ i j, i < nx → j < ny → (i = 0 ∨ i = nx - 1 ∨ j = 0 ∨ j = ny - 1) →
      fieldAt sol.u j i = bcField bc j i) ∧
    (∀ i j, 1 ≤ i → i ≤ nx - 2 → 1 ≤ j → j ≤ ny - 2 →
      ∃ fv, rf (x_min + (i : ℚ) * ((x_max - x_min) / ((nx : ℚ) - 1)))
              (y_min + (j : ℚ) * ((y_max - y_min) / ((ny : ℚ) - 1))) =
          .ok fv ∧
        (2 / ((x_max - x_min) / ((nx : ℚ) - 1)) ^ 2 +
         2 / ((y_max - y_min) / ((ny : ℚ) - 1)) ^ 2) * fieldAt sol.u j i
        - (1 / ((x_max - x_min) / ((nx : ℚ) - 1)) ^ 2) *
            (fieldAt sol.u j (i - 1) + fieldAt sol.u j (i + 1))
        - (1 / ((y_max - y_min) / ((ny : ℚ) - 1)) ^ 2) *
            (fieldAt sol.u (j - 1) i + fieldAt sol.u (j + 1) i) = fv) ∧
    ((∀ a b, rf a b = .ok 0) → bc = none →
      ∀ j i, j < ny → i < nx → fieldAt sol.u j i = 0) := by
  simp only [solve_pde_2d] at hok
  rw [if_neg (by omega)] at hok
  simp only [eq_true (show 1 < nx by omega), eq_true (show 1 < ny by omega),
    if_true] at hok
  split at hok
  · cases hok
  rename_i bvec hB
  split at hok
  · cases hok
  rename_i uflat hG
  have hs := Except.ok.inj hok
  have hu : sol.u = (List.range ny).map (fun j => (List.range nx).map (fun i =>
      if 1 ≤ i ∧ i ≤ nx - 2 ∧ 1 ≤ j ∧ j ≤ ny - 2 then
        uflat.getD (kIdx nx i j) 0
      else bcField bc j i)) := by
    rw [← hs]
  have hlenb := mapE_ok_length _ _ _ hB
  unfold gaussSolve at hG
  have hflen := gaussElim_length _ _ _ hG
  rw [List.length_zipWith, hlenb, min_self] at hflen
  have hcor0 := fun hwf2 => gaussElim_correct _ _ _ hwf2 hG
  have hcor := hcor0 (by
    intro r hr
    obtain ⟨⟨a, ha, h1⟩, h2⟩ := zipWith_pair_mem (fun p : ℕ × ℕ => (interiorList nx ny).map (fun p2 =>
        stencilCoef nx ny
          (1 / ((x_max - x_min) / ((nx : ℚ) - 1) * ((x_max - x_min) / ((nx : ℚ) - 1))))
          (1 / ((y_max - y_min) / ((ny : ℚ) - 1) * ((y_max - y_min) / ((ny : ℚ) - 1))))
          p.1 p.2 p2.1 p2.2)) _ _ r hr
    rw [h1]
    simp only [List.length_map, List.length_zipWith]
    rw [hlenb, min_self])
  have hU : ∀ a b2 : ℕ, a < nx → b2 < ny → fieldAt sol.u b2 a =
      if 1 ≤ a ∧ a ≤ nx - 2 ∧ 1 ≤ b2 ∧ b2 ≤ ny - 2 then
        uflat.getD (kIdx nx a b2) 0
      else bcField bc b2 a := by
    intro a b2 ha hb2
    rw [hu]
    simp only [fieldAt]
    rw [getD_map_range _ ny b2 hb2]
    rw [getD_map_range _ nx a ha]
  refine ⟨?_, ?_, ?_⟩
  · intro i j hi hj hbd
    rw [hU i j hi hj, if_neg (by omega)]
  · intro i j hi1 hi2 hj1 hj2
    have hgi := interiorList_get nx ny i j hx3 hi1 hi2 hj1 hj2
    obtain ⟨b, hgb, hbk⟩ := mapE_ok_get _ _ _ (kIdx nx i j) (i, j) hB hgi
    have hrq := zipWith_pair_get (fun p : ℕ × ℕ => (interiorList nx ny).map (fun p2 =>
        stencilCoef nx ny
          (1 / ((x_max - x_min) / ((nx : ℚ) - 1) * ((x_max - x_min) / ((nx : ℚ) - 1))))
          (1 / ((y_max - y_min) / ((ny : ℚ) - 1) * ((y_max - y_min) / ((ny : ℚ) - 1))))
          p.1 p.2 p2.1 p2.2)) (interiorList nx ny) bvec
      (kIdx nx i j) (i, j) b hgi hbk
    have hrmem := List.get?_mem hrq
    have hrowk := hcor _ hrmem
    dsimp only at hrowk
    dsimp only at hgb
    split at hgb
    · cases hgb
    rename_i fv heqrf
    have hb2 := Except.ok.inj hgb
    rw [← hb2] at hrowk
    rw [stencil_row_eq nx ny hx3 hy3 _ _ i j hi1 hi2 hj1 hj2 uflat hflen]
      at hrowk
    simp only [stencilRhs] at hrowk
    rw [linspace_getD x_min x_max nx (by omega) i (by omega),
      linspace_getD y_min y_max ny (by omega) j (by omega),
      mul_div_assoc, mul_div_assoc] at heqrf
    refine ⟨fv, heqrf, ?_⟩
    have hvC : fieldAt sol.u j i = uflat.getD (kIdx nx i j) 0 := by
      rw [hU i j (by omega) (by omega), if_pos (by omega)]
    have hvL : fieldAt sol.u j (i - 1) =
        if 1 < i then uflat.getD (kIdx nx (i - 1) j) 0
        else bcField bc j (i - 1) := by
      rw [hU (i - 1) j (by omega) (by omega)]
      by_cases hg : 1 < i
      · rw [if_pos (by omega), if_pos hg]
      · rw [if_neg (by omega), if_neg hg]
    have hvR : fieldAt sol.u j (i + 1) =
        if i < nx - 2 then uflat.getD (kIdx nx (i + 1) j) 0
        else bcField bc j (i + 1) := by
      rw [hU (i + 1) j (by omega) (by omega)]
      by_cases hg : i < nx - 2
      · rw [if_pos (by omega), if_pos hg]
      · rw [if_neg (by omega), if_neg hg]
    have hvD : fieldAt sol.u (j - 1) i =
        if 1 < j then uflat.getD (kIdx nx i (j - 1)) 0
        else bcField bc (j - 1) i := by
      rw [hU i (j - 1) (by omega) (by omega)]
      by_cases hg : 1 < j
      · rw [if_pos (by omega), if_pos hg]
      · rw [if_neg (by omega), if_neg hg]
    have hvU2 : fieldAt sol.u (j + 1) i =
        if j < ny - 2 then uflat.getD (kIdx nx i (j + 1)) 0
        else bcField bc (j + 1) i := by
      rw [hU i (j + 1) (by omega) (by omega)]
      by_cases hg : j < ny - 2
      · rw [if_pos (by omega), if_pos hg]
      · rw [if_neg (by omega), if_neg hg]
    rw [hvC, hvL, hvR, hvD, hvU2]
    by_cases hc1 : 1 < i <;> by_cases hc2 : i < nx - 2 <;>
      by_cases hc3 : 1 < j <;> by_cases hc4 : j < ny - 2 <;>
      simp only [hc1, hc2, hc3, hc4, if_true, if_false, not_true, not_false_iff,
        eq_self_iff_true] at hrowk ⊢ <;>
      linear_combination hrowk
  · intro hf hbc j i hj hi
    have hbv0 : ∀ v ∈ bvec, v = 0 := by
      intro v hv
      obtain ⟨k, hk⟩ := List.mem_iff_get?.mp hv
      have hklt : k < bvec.length := (List.get?_eq_some.mp hk).1
      rw [hlenb] at hklt
      have hp := List.get?_eq_get hklt
      obtain ⟨b, hgb, hbk⟩ := mapE_ok_get _ _ _ k _ hB hp
      rw [hk] at hbk
      have hvb := Option.some.inj hbk
      split at hgb
      · rename_i e heq
        rw [hf] at heq
        cases heq
      · rename_i fv heq
        rw [hf] at heq
        have hfv := Except.ok.inj heq
        have hb2 := Except.ok.inj hgb
        rw [hvb, ← hb2, ← hfv, hbc]
        simp [stencilRhs, bcField]
    have huz0 := fun hz2 => gaussElim_zero _ _ _ hz2 hG
    have huz := huz0 (fun r hr =>
      hbv0 r.2 (zipWith_pair_mem (fun p : ℕ × ℕ => (interiorList nx ny).map (fun p2 =>
        stencilCoef nx ny
          (1 / ((x_max - x_min) / ((nx : ℚ) - 1) * ((x_max - x_min) / ((nx : ℚ) - 1))))
          (1 / ((y_max - y_min) / ((ny : ℚ) - 1) * ((y_max - y_min) / ((ny : ℚ) - 1))))
          p.1 p.2 p2.1 p2.2)) _ _ r hr).2)
    rw [hU i j hi hj]
    by_cases hint : 1 ≤ i ∧ i ≤ nx - 2 ∧ 1 ≤ j ∧ j ≤ ny - 2
    · rw [if_pos hint]
      exact getD_zero_of_all_zero uflat huz _
    · rw [if_neg hint, hbc]
      rfl

theorem solve_pde_2d_stencil_witness :
    ∃ sol : PDESolution,
      solve_pde_2d (fun _ _ => Except.ok (4 : ℚ)) 0 2 0 2 3 3 none =
        Except.ok sol ∧
      (∀ i j, i < 3 → j < 3 → (i = 0 ∨ i = 3 - 1 ∨ j = 0 ∨ j = 3 - 1) →
        fieldAt sol.u j i = bcField none j i) ∧
      (∀ i j, 1 ≤ i → i ≤ 3 - 2 → 1 ≤ j → j ≤ 3 - 2 →
        ∃ fv, (Except.ok (4 : ℚ) : Except String ℚ) = Except.ok fv ∧
          (2 / (((2 : ℚ) - 0) / ((3 : ℚ) - 1)) ^ 2 +
           2 / (((2 : ℚ) - 0) / ((3 : ℚ) - 1)) ^ 2) * fieldAt sol.u j i
          - (1 / (((2 : ℚ) - 0) / ((3 : ℚ) - 1)) ^ 2) *
              (fieldAt sol.u j (i - 1) + fieldAt sol.u j (i + 1))
          - (1 / (((2 : ℚ) - 0) / ((3 : ℚ) - 1)) ^ 2) *
              (fieldAt sol.u (j - 1) i + fieldAt sol.u (j + 1) i) = fv) := by
  have hOK : solve_pde_2d (fun _ _ => Except.ok (4 : ℚ)) 0 2 0 2 3 3 none =
      Except.ok ⟨[0, 1, 2], [0, 1, 2], [[0, 0, 0], [0, 1, 0], [0, 0, 0]],
        true, "OK", 0⟩ := by
    norm_num [solve_pde_2d, linspace, interiorList, mapE, stencilRhs,
      stencilCoef, gaussSolve, gaussElim, pivotSplit, dotQ, kIdx, bcField,
      List.range_succ, Bind.bind, Except.bind, List.zipWith]
  have H := solve_pde_2d_stencil (fun _ _ => Except.ok (4 : ℚ)) 0 2 0 2 3 3
    none _ (by decide) (by decide) hOK
  exact ⟨_, hOK, H.1, H.2.1⟩
